import Mathlib

/-!
Verification of the layered name-resolution core of the macOS overlay
filesystem (`src/devices/src/virtio/fs/macos/overlayfs/fs.rs`, with the older
variant in `src/devices/src/virtio/fs/macos/overlayfs.rs`).

The host filesystem is abstracted as an oracle answering the `lstat` calls the
code issues through `/.vol/<dev>/<ino>[/<name>]` paths.  File names are byte
strings (the code handles them as `CStr`); interned symbols compare equal
exactly when the underlying names are byte-equal, so we represent a symbol by
the interned byte string itself.
-/

namespace Overlay

/-- A file name, as the byte string carried by a `CStr` (no interior NUL). -/
abbrev Name := List Nat

/-- Bytes of the whiteout marker prefix `.wh.` (constant `WHITEOUT_PREFIX`). -/
def WH_PFX : Name := [46, 119, 104, 46]

/-- Bytes of the opaque-directory marker `.wh..wh..opq` (constant `OPAQUE_MARKER`). -/
def OPAQUE_MARKER : Name := [46, 119, 104, 46, 46, 119, 104, 46, 46, 111, 112, 113]

/-- The whiteout file name for `name`: `.wh.<name>`. -/
def whiteoutName (name : Name) : Name := WH_PFX ++ name

/-- The part of a host `stat64` the lookup engine reads: `st_dev`, `st_ino`,
and a tag abstracting every remaining field (so distinct stats stay distinct). -/
structure Stat where
  st_dev : Int
  st_ino : Nat
  tag : Nat
deriving DecidableEq

/-- The error classes the embedded code distinguishes (`io::ErrorKind` plus the
raw errno for errors it propagates verbatim). -/
inductive IoErr where
  | notFound
  | invalidInput
  | permissionDenied
  | badFd
  | raw (n : Nat)
deriving DecidableEq

instance {ε α : Type} [DecidableEq ε] [DecidableEq α] : DecidableEq (Except ε α) := fun a b =>
  match a, b with
  | .error x, .error y =>
    if h : x = y then .isTrue (by rw [h]) else .isFalse (fun hc => h (by cases hc; rfl))
  | .error _, .ok _ => .isFalse (fun hc => by cases hc)
  | .ok _, .error _ => .isFalse (fun hc => by cases hc)
  | .ok x, .ok y =>
    if h : x = y then .isTrue (by rw [h]) else .isFalse (fun hc => h (by cases hc; rfl))

/-- Result of one host `lstat` call: success, `ENOENT`, or another raw errno. -/
inductive LstatResult where
  | ok (st : Stat)
  | notFound
  | err (n : Nat)
deriving DecidableEq

/-- The host filesystem, seen through the two path shapes the code stats:
`/.vol/<dev>/<ino>` (`statRoot`) and `/.vol/<dev>/<ino>/<name>` (`statChild`). -/
structure Host where
  statRoot : Int → Nat → LstatResult
  statChild : Int → Nat → Name → LstatResult

/-- In-memory record for one overlay inode (struct `InodeData`).  `refcount`
is the value of the atomic counter. -/
structure InodeData where
  inode : Nat
  ino : Nat
  dev : Int
  refcount : Nat
  path : List Name
  layer_idx : Nat
deriving DecidableEq

/-- Modelled from the spec: `MultikeyBTreeMap` (crate `virtio::fs::multikey`) is
not under `src/`.  Spec section 4.2 describes it as a composite map keyed
independently by inode id and by alt-key `(host_dev, host_ino)`, both keys
pointing at the same shared record; `insert` adds under both keys and `remove`
removes from both indices.  We represent the map state as the list of records;
the id index and the alt-key index are the two derived lookups below. -/
structure MultikeyMap where
  records : List InodeData
deriving DecidableEq

/-- Lookup by inode id (`MultikeyBTreeMap::get`). -/
def MultikeyMap.get (m : MultikeyMap) (id : Nat) : Option InodeData :=
  m.records.find? (fun r => r.inode == id)

/-- Lookup by alt-key (`MultikeyBTreeMap::get_alt`). -/
def MultikeyMap.getAlt (m : MultikeyMap) (ino : Nat) (dev : Int) : Option InodeData :=
  m.records.find? (fun r => r.ino == ino && r.dev == dev)

/-- Insert a record under both keys (`MultikeyBTreeMap::insert`; every caller
in the embedded code inserts a fresh id whose alt-key is absent). -/
def MultikeyMap.insert (m : MultikeyMap) (d : InodeData) : MultikeyMap :=
  ⟨d :: m.records⟩

/-- Remove a record by id from both indices (`MultikeyBTreeMap::remove`). -/
def MultikeyMap.remove (m : MultikeyMap) (id : Nat) : MultikeyMap :=
  ⟨m.records.filter (fun r => r.inode != id)⟩

/-- `data.refcount.fetch_add(n)` on the record found by alt-key. -/
def MultikeyMap.bumpAlt (m : MultikeyMap) (ino : Nat) (dev : Int) (n : Nat) : MultikeyMap :=
  ⟨m.records.map (fun r =>
    if r.ino == ino && r.dev == dev then { r with refcount := r.refcount + n } else r)⟩

/-- `data.refcount.fetch_sub(n)` on the record found by id. -/
def MultikeyMap.subById (m : MultikeyMap) (id : Nat) (n : Nat) : MultikeyMap :=
  ⟨m.records.map (fun r =>
    if r.inode == id then { r with refcount := r.refcount - n } else r)⟩

/-- The filesystem state the verified operations touch: the inode table, the
id counter, the reserved root id and the per-layer root ids (`layer_roots`). -/
structure OverlayFs where
  inodes : MultikeyMap
  next_inode : Nat
  init_inode : Nat
  layer_roots : List Nat
deriving DecidableEq

/-- `OverlayFs::validate_name`, byte for byte: empty names and names with a NUL
byte are `InvalidInput`; `..` and names containing `/` (47) or `\` (92) are
`PermissionDenied`.  (No other byte pattern is rejected.) -/
def validate_name (name : Name) : Except IoErr Unit :=
  if name = [] then .error .invalidInput
  else if name = [46, 46] ∨ name.contains 47 ∨ name.contains 92 then .error .permissionDenied
  else if name.contains 0 then .error .invalidInput
  else .ok ()

/-- `OverlayFs::check_whiteout` (fs.rs): stat `<parent>/.wh.<name>`; found means
`true`, `ENOENT` means `false`, any other error propagates. -/
def check_whiteout (h : Host) (dev : Int) (ino : Nat) (name : Name) : Except IoErr Bool :=
  match h.statChild dev ino (whiteoutName name) with
  | .ok _ => .ok true
  | .notFound => .ok false
  | .err n => .error (.raw n)

/-- `OverlayFs::check_opaque_marker` (fs.rs): stat `<parent>/.wh..wh..opq`. -/
def check_opaque_marker (h : Host) (dev : Int) (ino : Nat) : Except IoErr Bool :=
  match h.statChild dev ino OPAQUE_MARKER with
  | .ok _ => .ok true
  | .notFound => .ok false
  | .err n => .error (.raw n)

/-- The segment loop of `OverlayFs::lookup_segment_by_segment` (fs.rs).  State:
the parent directory of the next segment is `(dev, ino)`, `cur` is the last
successful stat, `opq` records whether an opaque marker was seen at any prefix.
`none` means a whiteout or opaque mask stops the search of lower layers. -/
def lookupSegments (h : Host) (dev : Int) (ino : Nat) (cur : Stat) (opq : Bool) :
    List Name → Option (Except IoErr Stat)
  | [] => some (.ok cur)
  | seg :: rest =>
    match h.statChild dev ino (whiteoutName seg) with
    | .ok _ => none
    | .err n => some (.error (.raw n))
    | .notFound =>
      match h.statChild dev ino OPAQUE_MARKER with
      | .err n => some (.error (.raw n))
      | om =>
        let opq' := opq || (match om with | .ok _ => true | _ => false)
        match h.statChild dev ino seg with
        | .ok st => lookupSegments h st.st_dev st.st_ino st opq' rest
        | .notFound => if opq' then none else some (.error .notFound)
        | .err n => some (.error (.raw n))

/-- `OverlayFs::lookup_segment_by_segment` (fs.rs): stat the layer root, then
walk the segments. -/
def lookup_segment_by_segment (h : Host) (layerRoot : InodeData) (segs : List Name) :
    Option (Except IoErr Stat) :=
  match h.statRoot layerRoot.dev layerRoot.ino with
  | .ok st => lookupSegments h layerRoot.dev layerRoot.ino st false segs
  | .notFound => some (.error .notFound)
  | .err n => some (.error (.raw n))

/-- `OverlayFs::get_layer_root` (fs.rs): index `layer_roots`, reject 0, then
look the id up in the inode table (`EBADF` when the record is gone). -/
def OverlayFs.get_layer_root (fs : OverlayFs) (layer_idx : Nat) : Except IoErr InodeData :=
  match fs.layer_roots.get? layer_idx with
  | none => .error .notFound
  | some inode =>
    if inode = 0 then .error .notFound
    else
      match fs.inodes.get inode with
      | some d => .ok d
      | none => .error .badFd

/-- `OverlayFs::create_inode` (fs.rs): allocate `next_inode`, build the record
with refcount 1, insert it under both keys. -/
def OverlayFs.create_inode (fs : OverlayFs) (ino : Nat) (dev : Int) (path : List Name)
    (layer_idx : Nat) : Nat × OverlayFs :=
  let inode := fs.next_inode
  let data : InodeData := ⟨inode, ino, dev, 1, path, layer_idx⟩
  (inode, { fs with next_inode := fs.next_inode + 1, inodes := fs.inodes.insert data })

/-- The layer loop of `OverlayFs::do_lookup` (fs.rs), over the remaining layer
indices (descending).  Success returns the entry's `(inode id, stat)` and the
updated state; a whiteout/opaque mask (`none`) raises `ENOENT` at once. -/
def do_lookup_go (fs : OverlayFs) (h : Host) (segs : List Name) :
    List Nat → Except IoErr (Nat × Stat) × OverlayFs
  | [] => (.error .notFound, fs)
  | layer_idx :: rest =>
    match fs.get_layer_root layer_idx with
    | .error e => (.error e, fs)
    | .ok layerRoot =>
      match lookup_segment_by_segment h layerRoot segs with
      | some (.ok st) =>
        match fs.inodes.getAlt st.st_ino st.st_dev with
        | some data =>
          (.ok (data.inode, st), { fs with inodes := fs.inodes.bumpAlt st.st_ino st.st_dev 1 })
        | none =>
          let created := fs.create_inode st.st_ino st.st_dev segs layer_idx
          (.ok (created.1, st), created.2)
      | some (.error .notFound) => do_lookup_go fs h segs rest
      | some (.error e) => (.error e, fs)
      | none => (.error .notFound, fs)

/-- `OverlayFs::do_lookup` (fs.rs): resolve the parent record, append the
interned name to its path, and scan layers from the parent's layer down to 0. -/
def OverlayFs.do_lookup (fs : OverlayFs) (h : Host) (parent : Nat) (name : Name) :
    Except IoErr (Nat × Stat) × OverlayFs :=
  match fs.inodes.get parent with
  | none => (.error .badFd, fs)
  | some parentData =>
    do_lookup_go fs h (parentData.path ++ [name])
      ((List.range (parentData.layer_idx + 1)).reverse)

/-- `OverlayFs::forget_one` (fs.rs): fetch-sub the refcount; if the previous
value was at most `count`, remove the record from both indices. -/
def forget_one (m : MultikeyMap) (inode : Nat) (count : Nat) : MultikeyMap :=
  match m.get inode with
  | none => m
  | some data =>
    if data.refcount ≤ count then (m.subById inode count).remove inode
    else m.subById inode count

/-- `FileSystem::forget` for `OverlayFs` (fs.rs): no-op on the root id, else
`forget_one` under the write lock. -/
def OverlayFs.forget (fs : OverlayFs) (inode : Nat) (count : Nat) : OverlayFs :=
  if inode = fs.init_inode then fs
  else { fs with inodes := forget_one fs.inodes inode count }

/-- The loop body of `OverlayFs::init_root_inodes` (fs.rs), which walks the
layer list from top (`i = layers.length`) down to bottom, assigning ids from
`next` upward; `layers` holds the stat of each layer root path. -/
def init_go : Nat → List Stat → MultikeyMap → Nat → List Nat →
    MultikeyMap × Nat × List Nat
  | 0, _, m, next, roots => (m, next, roots)
  | i + 1, layers, m, next, roots =>
    match layers[i]? with
    | none => (m, next, roots)
    | some st =>
      let d : InodeData := ⟨next, st.st_ino, st.st_dev, 1, [], i⟩
      init_go i layers (m.insert d) (next + 1) (roots.set i next)

/-- `OverlayFs::init_root_inodes` (fs.rs): create a root record per layer,
processing layers from top to bottom with ids starting at 1. -/
def init_root_inodes (layers : List Stat) : MultikeyMap × Nat × List Nat :=
  init_go layers.length layers ⟨[]⟩ 1 (List.replicate layers.length 0)

/-- `OverlayFs::new` (fs.rs): reject an empty layer list, otherwise build the
state from the root records (`layers` holds the stat of each layer root path;
a failing layer stat aborts construction and is out of scope here). -/
def OverlayFs.new (layers : List Stat) : Except IoErr OverlayFs :=
  if layers = [] then .error .invalidInput
  else
    let built := init_root_inodes layers
    .ok { inodes := built.1, next_inode := built.2.1, init_inode := 1,
          layer_roots := built.2.2 }

/-!
The older lookup implementation, `overlayfs.rs`.  It shares `InodeData`,
`create_inode`, `forget_one` and `validate_name` with `fs.rs` but resolves the
whole relative path with one host `lstat` (`symbols_to_path`), checks whiteouts
only in the parent's already-resolved host directory, and has no opaque-marker
handling.  Its layer roots live in `path_to_inode_map[[]]`, modelled here as
the `root_inodes` field.
-/

/-- State of the older implementation (struct `OverlayFs` in overlayfs.rs). -/
structure OverlayFs2 where
  inodes : MultikeyMap
  next_inode : Nat
  init_inode : Nat
  root_inodes : List Nat
deriving DecidableEq

/-- Host resolution of the joined path `/.vol/<dev>/<ino>/<s1>/…/<sk>` built by
`symbols_to_path` (overlayfs.rs): the host walks the components in order. -/
def hostWalk (h : Host) (dev : Int) (ino : Nat) : List Name → LstatResult
  | [] => h.statRoot dev ino
  | [seg] => h.statChild dev ino seg
  | seg :: rest =>
    match h.statChild dev ino seg with
    | .ok st => hostWalk h st.st_dev st.st_ino rest
    | .notFound => .notFound
    | .err n => .err n

/-- `OverlayFs::get_layer_root` (overlayfs.rs): index the root-inode list of
`path_to_inode_map[[]]`, reject 0, then look the id up (all failures are
`NotFound`-kind errors in this version). -/
def OverlayFs2.get_layer_root (fs : OverlayFs2) (layer_idx : Nat) : Except IoErr InodeData :=
  match fs.root_inodes.get? layer_idx with
  | none => .error .notFound
  | some inode =>
    if inode = 0 then .error .notFound
    else
      match fs.inodes.get inode with
      | some d => .ok d
      | none => .error .notFound

/-- `OverlayFs::create_inode` (overlayfs.rs, same body as fs.rs). -/
def OverlayFs2.create_inode (fs : OverlayFs2) (ino : Nat) (dev : Int) (path : List Name)
    (layer_idx : Nat) : Nat × OverlayFs2 :=
  let inode := fs.next_inode
  let data : InodeData := ⟨inode, ino, dev, 1, path, layer_idx⟩
  (inode, { fs with next_inode := fs.next_inode + 1, inodes := fs.inodes.insert data })

/-- The layer loop of `OverlayFs::do_lookup` (overlayfs.rs).  For layers below
the starting one it first consults `check_whiteout` on the parent's resolved
host directory `(pdDev, pdIno)` — a successful whiteout stat skips to the next
layer — then resolves the joined path in one host walk. -/
def do_lookup2_go (fs : OverlayFs2) (h : Host) (pdDev : Int) (pdIno : Nat) (name : Name)
    (segs : List Name) (start : Nat) : List Nat → Except IoErr (Nat × Stat) × OverlayFs2
  | [] => (.error .notFound, fs)
  | layer_idx :: rest =>
    match fs.get_layer_root layer_idx with
    | .error e => (.error e, fs)
    | .ok layerRoot =>
      let whiteout_found := decide (layer_idx < start) &&
        (match h.statChild pdDev pdIno (whiteoutName name) with
         | .ok _ => true
         | _ => false)
      if whiteout_found then do_lookup2_go fs h pdDev pdIno name segs start rest
      else
        match hostWalk h layerRoot.dev layerRoot.ino segs with
        | .ok st =>
          match fs.inodes.getAlt st.st_ino st.st_dev with
          | some data =>
            (.ok (data.inode, st), { fs with inodes := fs.inodes.bumpAlt st.st_ino st.st_dev 1 })
          | none =>
            let created := fs.create_inode st.st_ino st.st_dev segs layer_idx
            (.ok (created.1, st), created.2)
        | .notFound => do_lookup2_go fs h pdDev pdIno name segs start rest
        | .err n => (.error (.raw n), fs)

/-- `OverlayFs::do_lookup` (overlayfs.rs): resolve the parent record, append
the interned name, and scan layers from the parent's layer down to 0. -/
def OverlayFs2.do_lookup (fs : OverlayFs2) (h : Host) (parent : Nat) (name : Name) :
    Except IoErr (Nat × Stat) × OverlayFs2 :=
  match fs.inodes.get parent with
  | none => (.error .badFd, fs)
  | some pd =>
    do_lookup2_go fs h pd.dev pd.ino name (pd.path ++ [name]) pd.layer_idx
      ((List.range (pd.layer_idx + 1)).reverse)

/-!  General lemmas about the fs.rs layer loop. -/

theorem do_lookup_go_cons_pass (fs : OverlayFs) (h : Host) (segs : List Name)
    (l : Nat) (rest : List Nat) (r : InodeData)
    (hr : fs.get_layer_root l = .ok r)
    (hl : lookup_segment_by_segment h r segs = some (.error .notFound)) :
    do_lookup_go fs h segs (l :: rest) = do_lookup_go fs h segs rest := by
  simp [do_lookup_go, hr, hl]

theorem do_lookup_go_cons_none (fs : OverlayFs) (h : Host) (segs : List Name)
    (l : Nat) (rest : List Nat) (r : InodeData)
    (hr : fs.get_layer_root l = .ok r)
    (hl : lookup_segment_by_segment h r segs = none) :
    do_lookup_go fs h segs (l :: rest) = (.error .notFound, fs) := by
  simp [do_lookup_go, hr, hl]

theorem do_lookup_go_cons_rootErr (fs : OverlayFs) (h : Host) (segs : List Name)
    (l : Nat) (rest : List Nat) (e : IoErr)
    (hr : fs.get_layer_root l = .error e) :
    do_lookup_go fs h segs (l :: rest) = (.error e, fs) := by
  simp [do_lookup_go, hr]

theorem do_lookup_go_passthrough (fs : OverlayFs) (h : Host) (segs : List Name)
    (upper rest : List Nat)
    (hup : ∀ l ∈ upper, ∃ r, fs.get_layer_root l = .ok r ∧
      lookup_segment_by_segment h r segs = some (.error .notFound)) :
    do_lookup_go fs h segs (upper ++ rest) = do_lookup_go fs h segs rest := by
  induction upper with
  | nil => rfl
  | cons l ls ih =>
    obtain ⟨r, hr, hl⟩ := hup l (by simp)
    rw [List.cons_append, do_lookup_go_cons_pass fs h segs l (ls ++ rest) r hr hl]
    exact ih (fun l' hl' => hup l' (by simp [hl']))

theorem lookupSegments_whiteout (h : Host) (dev : Int) (ino : Nat) (cur : Stat) (opq : Bool)
    (seg : Name) (rest : List Name) (wst : Stat)
    (hw : h.statChild dev ino (whiteoutName seg) = .ok wst) :
    lookupSegments h dev ino cur opq (seg :: rest) = none := by
  simp [lookupSegments, hw]

theorem lookupSegments_opaque_missing (h : Host) (dev : Int) (ino : Nat) (cur : Stat)
    (opq : Bool) (seg : Name) (rest : List Name)
    (hw : h.statChild dev ino (whiteoutName seg) = .notFound)
    (hopq : (∃ ost, h.statChild dev ino OPAQUE_MARKER = .ok ost) ∨
      (opq = true ∧ h.statChild dev ino OPAQUE_MARKER = .notFound))
    (hmiss : h.statChild dev ino seg = .notFound) :
    lookupSegments h dev ino cur opq (seg :: rest) = none := by
  rcases hopq with ⟨ost, ho⟩ | ⟨hq, ho⟩
  · simp [lookupSegments, hw, ho, hmiss]
  · simp [lookupSegments, hw, ho, hmiss, hq]

theorem lookupSegments_last_ok (h : Host) (dev : Int) (ino : Nat) (cur : Stat) (opq : Bool)
    (seg : Name) (st : Stat)
    (hw : h.statChild dev ino (whiteoutName seg) = .notFound)
    (hom : ∀ n, h.statChild dev ino OPAQUE_MARKER ≠ .err n)
    (hst : h.statChild dev ino seg = .ok st) :
    lookupSegments h dev ino cur opq [seg] = some (.ok st) := by
  cases homv : h.statChild dev ino OPAQUE_MARKER with
  | err n => exact absurd homv (hom n)
  | ok ost => simp [lookupSegments, hw, homv, hst]
  | notFound => simp [lookupSegments, hw, homv, hst]

/-- C1: during layer-by-layer lookup, if the traversal inside some layer L
(reached after all higher layers reported plain NotFound) meets a sibling
whiteout file `.wh.<segment>` for the next path segment, the whole lookup
fails with NotFound (ENOENT), the state is unchanged, and no layer below L is
consulted (the result is the same whatever list of lower layers follows L). -/
theorem C1_whiteout_blocks_lookup
    (fs : OverlayFs) (h : Host) (parent : Nat) (name : Name)
    (pd rL : InodeData) (upper lower : List Nat) (L : Nat)
    (dev : Int) (ino : Nat) (cur wst : Stat) (opq : Bool) (seg : Name) (restSegs : List Name)
    (hp : fs.inodes.get parent = some pd)
    (hsplit : (List.range (pd.layer_idx + 1)).reverse = upper ++ L :: lower)
    (hup : ∀ l ∈ upper, ∃ r, fs.get_layer_root l = .ok r ∧
      lookup_segment_by_segment h r (pd.path ++ [name]) = some (.error .notFound))
    (hrootL : fs.get_layer_root L = .ok rL)
    (hreach : lookup_segment_by_segment h rL (pd.path ++ [name]) =
      lookupSegments h dev ino cur opq (seg :: restSegs))
    (hw : h.statChild dev ino (whiteoutName seg) = .ok wst) :
    fs.do_lookup h parent name = (.error .notFound, fs) ∧
    ∀ lower', do_lookup_go fs h (pd.path ++ [name]) (L :: lower') = (.error .notFound, fs) := by
  have hnone : lookup_segment_by_segment h rL (pd.path ++ [name]) = none := by
    rw [hreach]
    exact lookupSegments_whiteout h dev ino cur opq seg restSegs wst hw
  have h2 : ∀ lower',
      do_lookup_go fs h (pd.path ++ [name]) (L :: lower') = (.error .notFound, fs) :=
    fun lower' => do_lookup_go_cons_none fs h _ L lower' rL hrootL hnone
  refine ⟨?_, h2⟩
  have hdl : fs.do_lookup h parent name =
      do_lookup_go fs h (pd.path ++ [name]) ((List.range (pd.layer_idx + 1)).reverse) := by
    simp [OverlayFs.do_lookup, hp]
  rw [hdl, hsplit, do_lookup_go_passthrough fs h _ upper (L :: lower) hup, h2 lower]

/-- The name `x` as bytes. -/
def nmX : Name := [120]

/-- Witness host for C1 (spec scenario B): layer 1 root is `(0, 200)` and holds
the whiteout `.wh.x`; layer 0 root is `(0, 100)` and holds `x`. -/
def hostW1 : Host where
  statRoot := fun dev ino =>
    if dev = 0 ∧ ino = 200 then .ok ⟨0, 200, 0⟩
    else if dev = 0 ∧ ino = 100 then .ok ⟨0, 100, 1⟩
    else .notFound
  statChild := fun dev ino n =>
    if dev = 0 ∧ ino = 200 ∧ n = whiteoutName nmX then .ok ⟨0, 999, 2⟩
    else if dev = 0 ∧ ino = 100 ∧ n = nmX then .ok ⟨0, 101, 3⟩
    else .notFound

/-- Witness state for C1: the two layer-root records as `init_root_inodes`
builds them for two layers. -/
def fsW1 : OverlayFs :=
  ⟨⟨[⟨2, 100, 0, 1, [], 0⟩, ⟨1, 200, 0, 1, [], 1⟩]⟩, 3, 1, [2, 1]⟩

/-- Witness for C1: looking up `x` under the merged root hits the whiteout in
the top layer, fails with NotFound, and would do so whatever layers lay below. -/
theorem C1_witness :
    fsW1.do_lookup hostW1 1 nmX = (.error .notFound, fsW1) ∧
    do_lookup_go fsW1 hostW1 [nmX] [1, 5, 7] = (.error .notFound, fsW1) :=
  have hthm := C1_whiteout_blocks_lookup fsW1 hostW1 1 nmX
    ⟨1, 200, 0, 1, [], 1⟩ ⟨1, 200, 0, 1, [], 1⟩ [] [0] 1
    0 200 ⟨0, 200, 0⟩ ⟨0, 999, 2⟩ false nmX []
    (by decide) (by decide) (fun l hl => absurd hl (List.not_mem_nil l))
    (by decide) (by decide) (by decide)
  ⟨hthm.1, hthm.2 [5, 7]⟩

theorem do_lookup_go_cons_ok (fs : OverlayFs) (h : Host) (segs : List Name)
    (l : Nat) (rest : List Nat) (r : InodeData) (st : Stat)
    (hr : fs.get_layer_root l = .ok r)
    (hl : lookup_segment_by_segment h r segs = some (.ok st)) :
    ∃ id fs', do_lookup_go fs h segs (l :: rest) = (.ok (id, st), fs') := by
  cases halt : fs.inodes.getAlt st.st_ino st.st_dev with
  | some data =>
    exact ⟨data.inode, { fs with inodes := fs.inodes.bumpAlt st.st_ino st.st_dev 1 },
      by simp [do_lookup_go, hr, hl, halt]⟩
  | none =>
    exact ⟨fs.next_inode, (fs.create_inode st.st_ino st.st_dev segs l).2,
      by simp [do_lookup_go, hr, hl, halt, OverlayFs.create_inode]⟩

/-- C2: if the traversal inside layer L (reached after all higher layers
reported plain NotFound) stands in a directory whose prefix chain carries an
opaque marker `.wh..wh..opq` (seen here or at an earlier prefix), then a
missing next segment makes the whole lookup fail with NotFound without
consulting any layer below L, while a sibling entry that does exist in layer L
itself is still returned. -/
theorem C2_opaque_masks_lower
    (fs : OverlayFs) (h : Host) (parent : Nat) (name : Name)
    (pd rL : InodeData) (upper lower : List Nat) (L : Nat)
    (dev : Int) (ino : Nat) (cur : Stat) (opq : Bool) (seg : Name) (restSegs : List Name)
    (hp : fs.inodes.get parent = some pd)
    (hsplit : (List.range (pd.layer_idx + 1)).reverse = upper ++ L :: lower)
    (hup : ∀ l ∈ upper, ∃ r, fs.get_layer_root l = .ok r ∧
      lookup_segment_by_segment h r (pd.path ++ [name]) = some (.error .notFound))
    (hrootL : fs.get_layer_root L = .ok rL)
    (hreach : lookup_segment_by_segment h rL (pd.path ++ [name]) =
      lookupSegments h dev ino cur opq (seg :: restSegs))
    (hw : h.statChild dev ino (whiteoutName seg) = .notFound)
    (hopq : (∃ ost, h.statChild dev ino OPAQUE_MARKER = .ok ost) ∨
      (opq = true ∧ h.statChild dev ino OPAQUE_MARKER = .notFound)) :
    (h.statChild dev ino seg = .notFound →
      fs.do_lookup h parent name = (.error .notFound, fs) ∧
      ∀ lower', do_lookup_go fs h (pd.path ++ [name]) (L :: lower') = (.error .notFound, fs)) ∧
    (∀ st, h.statChild dev ino seg = .ok st → restSegs = [] →
      ∃ id fs', fs.do_lookup h parent name = (.ok (id, st), fs')) := by
  have hdl : fs.do_lookup h parent name =
      do_lookup_go fs h (pd.path ++ [name]) ((List.range (pd.layer_idx + 1)).reverse) := by
    simp [OverlayFs.do_lookup, hp]
  constructor
  · intro hmiss
    have hnone : lookup_segment_by_segment h rL (pd.path ++ [name]) = none := by
      rw [hreach]
      exact lookupSegments_opaque_missing h dev ino cur opq seg restSegs hw hopq hmiss
    have h2 : ∀ lower',
        do_lookup_go fs h (pd.path ++ [name]) (L :: lower') = (.error .notFound, fs) :=
      fun lower' => do_lookup_go_cons_none fs h _ L lower' rL hrootL hnone
    refine ⟨?_, h2⟩
    rw [hdl, hsplit, do_lookup_go_passthrough fs h _ upper (L :: lower) hup, h2 lower]
  · intro st hst hrest
    have hom : ∀ n, h.statChild dev ino OPAQUE_MARKER ≠ .err n := by
      rcases hopq with ⟨ost, ho⟩ | ⟨_, ho⟩ <;> intro n <;> rw [ho] <;> intro hc <;> cases hc
    have hok : lookup_segment_by_segment h rL (pd.path ++ [name]) = some (.ok st) := by
      rw [hreach, hrest]
      exact lookupSegments_last_ok h dev ino cur opq seg st hw hom hst
    obtain ⟨id, fs', hgo⟩ := do_lookup_go_cons_ok fs h _ L lower rL st hrootL hok
    exact ⟨id, fs', by rw [hdl, hsplit, do_lookup_go_passthrough fs h _ upper (L :: lower) hup, hgo]⟩

/-- The name `d` as bytes. -/
def nmD : Name := [100]

/-- The name `old` as bytes. -/
def nmOld : Name := [111, 108, 100]

/-- The name `new` as bytes. -/
def nmNew : Name := [110, 101, 119]

/-- Witness host for C2 (spec scenario C): layer 1 root `(0, 200)` holds the
directory `d` `(0, 201)` with an opaque marker and the file `new`; layer 0
root `(0, 100)` would hold `d/old`, but is masked. -/
def hostW2 : Host where
  statRoot := fun dev ino =>
    if dev = 0 ∧ ino = 200 then .ok ⟨0, 200, 0⟩
    else if dev = 0 ∧ ino = 100 then .ok ⟨0, 100, 1⟩
    else .notFound
  statChild := fun dev ino n =>
    if dev = 0 ∧ ino = 200 ∧ n = nmD then .ok ⟨0, 201, 2⟩
    else if dev = 0 ∧ ino = 201 ∧ n = OPAQUE_MARKER then .ok ⟨0, 299, 3⟩
    else if dev = 0 ∧ ino = 201 ∧ n = nmNew then .ok ⟨0, 202, 4⟩
    else .notFound

/-- Witness state for C2: the two layer roots plus the record for `d`,
resolved in layer 1. -/
def fsW2 : OverlayFs :=
  ⟨⟨[⟨3, 201, 0, 1, [nmD], 1⟩, ⟨2, 100, 0, 1, [], 0⟩, ⟨1, 200, 0, 1, [], 1⟩]⟩, 4, 1, [2, 1]⟩

/-- Witness for C2: under the opaque directory `d`, `old` (present only below)
fails with NotFound while the sibling `new` from the marker's own layer is
returned. -/
theorem C2_witness :
    fsW2.do_lookup hostW2 3 nmOld = (.error .notFound, fsW2) ∧
    ∃ id fs', fsW2.do_lookup hostW2 3 nmNew = (.ok (id, ⟨0, 202, 4⟩), fs') :=
  have h1 := (C2_opaque_masks_lower fsW2 hostW2 3 nmOld
    ⟨3, 201, 0, 1, [nmD], 1⟩ ⟨1, 200, 0, 1, [], 1⟩ [] [0] 1
    0 201 ⟨0, 201, 2⟩ false nmOld []
    (by decide) (by decide) (fun l hl => absurd hl (List.not_mem_nil l))
    (by decide) (by decide) (by decide) (Or.inl ⟨⟨0, 299, 3⟩, by decide⟩)).1 (by decide)
  have h2 := (C2_opaque_masks_lower fsW2 hostW2 3 nmNew
    ⟨3, 201, 0, 1, [nmD], 1⟩ ⟨1, 200, 0, 1, [], 1⟩ [] [0] 1
    0 201 ⟨0, 201, 2⟩ false nmNew []
    (by decide) (by decide) (fun l hl => absurd hl (List.not_mem_nil l))
    (by decide) (by decide) (by decide) (Or.inl ⟨⟨0, 299, 3⟩, by decide⟩)).2
    ⟨0, 202, 4⟩ (by decide) rfl
  ⟨h1.1, h2⟩

/-- C3: when the candidate path resolves (without whiteout or opaque masking)
in layer L, the first such layer scanning down from the parent's layer — i.e.
the one with the largest index — supplies the returned stat; a fresh inode
record created for the result carries `layer_idx = L` and the candidate path,
while a hit on an existing alt-key returns that record's id. -/
theorem C3_highest_layer_wins
    (fs : OverlayFs) (h : Host) (parent : Nat) (name : Name)
    (pd rL : InodeData) (upper lower : List Nat) (L : Nat) (st : Stat)
    (hp : fs.inodes.get parent = some pd)
    (hsplit : (List.range (pd.layer_idx + 1)).reverse = upper ++ L :: lower)
    (hup : ∀ l ∈ upper, ∃ r, fs.get_layer_root l = .ok r ∧
      lookup_segment_by_segment h r (pd.path ++ [name]) = some (.error .notFound))
    (hrootL : fs.get_layer_root L = .ok rL)
    (hfound : lookup_segment_by_segment h rL (pd.path ++ [name]) = some (.ok st)) :
    ∃ id fs', fs.do_lookup h parent name = (.ok (id, st), fs') ∧
      ((∃ d, fs.inodes.getAlt st.st_ino st.st_dev = some d ∧ id = d.inode) ∨
       (fs.inodes.getAlt st.st_ino st.st_dev = none ∧ id = fs.next_inode ∧
        fs'.inodes.get id = some ⟨id, st.st_ino, st.st_dev, 1, pd.path ++ [name], L⟩)) := by
  have hdl : fs.do_lookup h parent name =
      do_lookup_go fs h (pd.path ++ [name]) ((List.range (pd.layer_idx + 1)).reverse) := by
    simp [OverlayFs.do_lookup, hp]
  cases halt : fs.inodes.getAlt st.st_ino st.st_dev with
  | some data =>
    refine ⟨data.inode, { fs with inodes := fs.inodes.bumpAlt st.st_ino st.st_dev 1 }, ?_,
      Or.inl ⟨data, rfl, rfl⟩⟩
    rw [hdl, hsplit, do_lookup_go_passthrough fs h _ upper (L :: lower) hup]
    simp [do_lookup_go, hrootL, hfound, halt]
  | none =>
    refine ⟨fs.next_inode, (fs.create_inode st.st_ino st.st_dev (pd.path ++ [name]) L).2,
      ?_, Or.inr ⟨rfl, rfl, ?_⟩⟩
    · rw [hdl, hsplit, do_lookup_go_passthrough fs h _ upper (L :: lower) hup]
      simp [do_lookup_go, hrootL, hfound, halt, OverlayFs.create_inode]
    · simp [OverlayFs.create_inode, MultikeyMap.insert, MultikeyMap.get]

/-- The name `a` as bytes. -/
def nmA : Name := [97]

/-- Witness host for C3 (spec scenario A): layer 2 root `(0, 300)` and layer 0
root `(0, 100)` both hold `a`; layer 1 root `(0, 200)` is empty. -/
def hostW3 : Host where
  statRoot := fun dev ino =>
    if dev = 0 ∧ ino = 300 then .ok ⟨0, 300, 0⟩
    else if dev = 0 ∧ ino = 200 then .ok ⟨0, 200, 1⟩
    else if dev = 0 ∧ ino = 100 then .ok ⟨0, 100, 2⟩
    else .notFound
  statChild := fun dev ino n =>
    if dev = 0 ∧ ino = 300 ∧ n = nmA then .ok ⟨0, 301, 5⟩
    else if dev = 0 ∧ ino = 100 ∧ n = nmA then .ok ⟨0, 101, 6⟩
    else .notFound

/-- Witness state for C3: the three layer-root records of scenario A. -/
def fsW3 : OverlayFs :=
  ⟨⟨[⟨3, 100, 0, 1, [], 0⟩, ⟨2, 200, 0, 1, [], 1⟩, ⟨1, 300, 0, 1, [], 2⟩]⟩, 4, 1, [3, 2, 1]⟩

/-- Witness for C3: with `a` present in layers 0 and 2, lookup returns the
stat from layer 2 and records the new inode with `layer_idx = 2`. -/
theorem C3_witness :
    ∃ fs', fsW3.do_lookup hostW3 1 nmA = (.ok (4, ⟨0, 301, 5⟩), fs') ∧
      fs'.inodes.get 4 = some ⟨4, 301, 0, 1, [nmA], 2⟩ := by
  obtain ⟨id, fs', hres, hcase⟩ := C3_highest_layer_wins fsW3 hostW3 1 nmA
    ⟨1, 300, 0, 1, [], 2⟩ ⟨1, 300, 0, 1, [], 2⟩ [] [1, 0] 2 ⟨0, 301, 5⟩
    (by decide) (by decide) (fun l hl => absurd hl (List.not_mem_nil l))
    (by decide) (by decide)
  rcases hcase with ⟨d, hd, _⟩ | ⟨_, hid, hget⟩
  · rw [show fsW3.inodes.getAlt (Stat.mk 0 301 5).st_ino (Stat.mk 0 301 5).st_dev = none from
      by decide] at hd
    exact Option.noConfusion hd
  · have h4 : id = 4 := hid.trans rfl
    subst h4
    exact ⟨fs', hres, hget⟩

/-- C4 (code bug): `validate_name` accepts the reserved whiteout-prefixed
names — `.wh.foo` and the opaque marker `.wh..wh..opq` both pass validation,
contradicting the repository's own test `test_mkdir_invalid_name`, which
expects `InvalidInput` for them — and it rejects `..`, `/` and `\` with
`PermissionDenied`, not `InvalidInput`/EINVAL.  Only empty and NUL-containing
names produce `InvalidInput`. -/
theorem C4_validate_name_accepts_reserved :
    validate_name (WH_PFX ++ [102, 111, 111]) = .ok () ∧
    validate_name OPAQUE_MARKER = .ok () ∧
    validate_name [46, 46] = .error .permissionDenied ∧
    validate_name [] = .error .invalidInput ∧
    validate_name [97, 47, 98] = .error .permissionDenied ∧
    validate_name [97, 92, 98] = .error .permissionDenied ∧
    validate_name [97, 0, 98] = .error .invalidInput := by
  decide

/-!  Well-formedness of the inode table, and lemmas about its operations. -/

/-- All records carry pairwise distinct inode ids. -/
def IdUnique (m : MultikeyMap) : Prop :=
  m.records.Pairwise (fun a b => a.inode ≠ b.inode)

/-- No two records share an alt-key (spec section 8, alt-key uniqueness). -/
def AltUnique (m : MultikeyMap) : Prop :=
  m.records.Pairwise (fun a b => ¬(a.ino = b.ino ∧ a.dev = b.dev))

instance (m : MultikeyMap) : Decidable (IdUnique m) :=
  List.instDecidablePairwise m.records

instance (m : MultikeyMap) : Decidable (AltUnique m) :=
  List.instDecidablePairwise m.records

theorem get_eq_some_mem (m : MultikeyMap) (id : Nat) (d : InodeData)
    (h : m.get id = some d) : d ∈ m.records ∧ d.inode = id := by
  refine ⟨List.mem_of_find?_eq_some h, ?_⟩
  have := List.find?_some h
  simpa using this

theorem getAlt_eq_some_mem (m : MultikeyMap) (ino : Nat) (dev : Int) (d : InodeData)
    (h : m.getAlt ino dev = some d) : d ∈ m.records ∧ d.ino = ino ∧ d.dev = dev := by
  refine ⟨List.mem_of_find?_eq_some h, ?_⟩
  have := List.find?_some h
  simpa using this

theorem getAlt_eq_none_iff (m : MultikeyMap) (ino : Nat) (dev : Int) :
    m.getAlt ino dev = none ↔ ∀ r ∈ m.records, ¬(r.ino = ino ∧ r.dev = dev) := by
  unfold MultikeyMap.getAlt
  rw [List.find?_eq_none]
  constructor <;> intro h r hr
  · intro hc
    exact h r hr (by simp [hc.1, hc.2])
  · have := h r hr
    simpa using this

theorem get_eq_none_iff (m : MultikeyMap) (id : Nat) :
    m.get id = none ↔ ∀ r ∈ m.records, r.inode ≠ id := by
  unfold MultikeyMap.get
  rw [List.find?_eq_none]
  constructor <;> intro h r hr
  · intro hc
    exact h r hr (by simp [hc])
  · have := h r hr
    simpa using this

theorem get_remove_self (m : MultikeyMap) (id : Nat) : (m.remove id).get id = none := by
  rw [get_eq_none_iff]
  intro r hr
  rw [MultikeyMap.remove, List.mem_filter] at hr
  simpa using hr.2

theorem mem_remove_subById (m : MultikeyMap) (id n : Nat) (r : InodeData)
    (hr : r ∈ ((m.subById id n).remove id).records) : r ∈ m.records ∧ r.inode ≠ id := by
  rw [MultikeyMap.remove, List.mem_filter] at hr
  obtain ⟨hmem, hne⟩ := hr
  rw [MultikeyMap.subById, List.mem_map] at hmem
  obtain ⟨r0, hr0, heq⟩ := hmem
  have hid : r.inode ≠ id := by simpa using hne
  by_cases h0 : r0.inode = id
  · exfalso
    apply hid
    rw [← heq]
    simp [h0]
  · have hr0r : r = r0 := by rw [← heq]; simp [h0]
    rw [hr0r]
    exact ⟨hr0, by rw [← hr0r]; exact hid⟩

theorem find?_inode_map_sub (t : List InodeData) (id n j : Nat) (hj : j ≠ id) :
    (t.map (fun r => if r.inode == id then { r with refcount := r.refcount - n } else r)).find?
      (fun r => r.inode == j) = t.find? (fun r => r.inode == j) := by
  induction t with
  | nil => rfl
  | cons a t ih =>
    rw [List.map_cons]
    by_cases ha : a.inode = id
    · rw [if_pos (by simp [ha])]
      rw [List.find?_cons_of_neg _ (by simp [ha, Ne.symm hj]),
        List.find?_cons_of_neg _ (by simp [ha, Ne.symm hj]), ih]
    · rw [if_neg (by simp [ha])]
      by_cases haj : a.inode = j
      · rw [List.find?_cons_of_pos _ (by simp [haj]), List.find?_cons_of_pos _ (by simp [haj])]
      · rw [List.find?_cons_of_neg _ (by simp [haj]), List.find?_cons_of_neg _ (by simp [haj]), ih]

theorem find?_inode_filter_ne (t : List InodeData) (id j : Nat) (hj : j ≠ id) :
    (t.filter (fun r => r.inode != id)).find? (fun r => r.inode == j) =
      t.find? (fun r => r.inode == j) := by
  induction t with
  | nil => rfl
  | cons a t ih =>
    by_cases ha : a.inode = id
    · rw [List.filter_cons_of_neg (by simp [ha]),
        List.find?_cons_of_neg _ (by simp [ha, Ne.symm hj]), ih]
    · rw [List.filter_cons_of_pos (by simp [ha])]
      by_cases haj : a.inode = j
      · rw [List.find?_cons_of_pos _ (by simp [haj]), List.find?_cons_of_pos _ (by simp [haj])]
      · rw [List.find?_cons_of_neg _ (by simp [haj]), List.find?_cons_of_neg _ (by simp [haj]), ih]

theorem get_subById_other (m : MultikeyMap) (id n j : Nat) (hj : j ≠ id) :
    (m.subById id n).get j = m.get j := by
  simp only [MultikeyMap.subById, MultikeyMap.get]
  exact find?_inode_map_sub m.records id n j hj

theorem get_remove_subById_other (m : MultikeyMap) (id n j : Nat) (hj : j ≠ id) :
    ((m.subById id n).remove id).get j = m.get j := by
  simp only [MultikeyMap.remove, MultikeyMap.subById, MultikeyMap.get]
  rw [find?_inode_filter_ne _ id j hj]
  exact find?_inode_map_sub m.records id n j hj

theorem find?_inode_map_sub_self (t : List InodeData) (id n : Nat) (d : InodeData)
    (hget : t.find? (fun r => r.inode == id) = some d) :
    (t.map (fun r => if r.inode == id then { r with refcount := r.refcount - n } else r)).find?
      (fun r => r.inode == id) = some { d with refcount := d.refcount - n } := by
  induction t with
  | nil => cases hget
  | cons a t ih =>
    by_cases ha : a.inode = id
    · rw [List.find?_cons_of_pos _ (by simp [ha])] at hget
      cases hget
      rw [List.map_cons, if_pos (by simp [ha]), List.find?_cons_of_pos _ (by simp [ha])]
    · rw [List.find?_cons_of_neg _ (by simp [ha])] at hget
      rw [List.map_cons, if_neg (by simp [ha]), List.find?_cons_of_neg _ (by simp [ha])]
      exact ih hget

theorem get_subById_self (m : MultikeyMap) (id n : Nat) (d : InodeData)
    (hget : m.get id = some d) :
    (m.subById id n).get id = some { d with refcount := d.refcount - n } := by
  simp only [MultikeyMap.subById, MultikeyMap.get] at *
  exact find?_inode_map_sub_self m.records id n d hget

theorem getAlt_remove_subById (m : MultikeyMap) (id n : Nat) (d : InodeData)
    (hget : m.get id = some d) (halt : AltUnique m) :
    ((m.subById id n).remove id).getAlt d.ino d.dev = none := by
  rw [getAlt_eq_none_iff]
  intro r hr
  obtain ⟨hrm, hrne⟩ := mem_remove_subById m id n r hr
  obtain ⟨hdm, hdid⟩ := get_eq_some_mem m id d hget
  have hrd : r ≠ d := fun hc => hrne (by rw [hc, hdid])
  have hsym : Symmetric (fun a b : InodeData => ¬(a.ino = b.ino ∧ a.dev = b.dev)) :=
    fun a b hab hc => hab ⟨hc.1.symm, hc.2.symm⟩
  exact List.Pairwise.forall hsym halt hrm hdm hrd

/-- C6: `forget(id, n)` subtracts `n` from the record's refcount, and exactly
when the count is exhausted (`refcount ≤ n`, i.e. the truncated subtraction
reaches zero) removes the record from the id index and the alt-key index,
leaving every other id untouched; forget of an absent id, and forget of the
root id `init_inode`, are no-ops. -/
theorem C6_forget_spec (fs : OverlayFs) (inode n : Nat)
    (halt : AltUnique fs.inodes) :
    (inode = fs.init_inode → fs.forget inode n = fs) ∧
    (fs.inodes.get inode = none → fs.forget inode n = fs) ∧
    (∀ d, inode ≠ fs.init_inode → fs.inodes.get inode = some d →
      (n < d.refcount →
        (fs.forget inode n).inodes.get inode = some { d with refcount := d.refcount - n } ∧
        ∀ j, j ≠ inode → (fs.forget inode n).inodes.get j = fs.inodes.get j) ∧
      (d.refcount ≤ n →
        (fs.forget inode n).inodes.get inode = none ∧
        (fs.forget inode n).inodes.getAlt d.ino d.dev = none ∧
        ∀ j, j ≠ inode → (fs.forget inode n).inodes.get j = fs.inodes.get j)) := by
  refine ⟨?_, ?_, ?_⟩
  · intro h
    simp [OverlayFs.forget, h]
  · intro h
    by_cases hroot : inode = fs.init_inode
    · simp [OverlayFs.forget, hroot]
    · simp [OverlayFs.forget, hroot, forget_one, h]
  · intro d hroot hget
    have hforget : (fs.forget inode n).inodes = forget_one fs.inodes inode n := by
      simp [OverlayFs.forget, hroot]
    constructor
    · intro hlt
      have hnotle : ¬d.refcount ≤ n := by omega
      have hf1 : forget_one fs.inodes inode n = fs.inodes.subById inode n := by
        simp [forget_one, hget, hnotle]
      exact ⟨by rw [hforget, hf1]; exact get_subById_self fs.inodes inode n d hget,
        fun j hj => by rw [hforget, hf1]; exact get_subById_other fs.inodes inode n j hj⟩
    · intro hle
      have hf1 : forget_one fs.inodes inode n = (fs.inodes.subById inode n).remove inode := by
        simp [forget_one, hget, hle]
      refine ⟨?_, ?_, fun j hj => ?_⟩
      · rw [hforget, hf1]
        exact get_remove_self _ inode
      · rw [hforget, hf1]
        exact getAlt_remove_subById fs.inodes inode n d hget halt
      · rw [hforget, hf1]
        exact get_remove_subById_other fs.inodes inode n j hj

/-- Witness state for C6: the root record (id 1) plus one entry record (id 2)
with refcount 2. -/
def fsW6 : OverlayFs :=
  ⟨⟨[⟨2, 10, 0, 2, [nmA], 0⟩, ⟨1, 50, 0, 1, [], 0⟩]⟩, 3, 1, [1]⟩

/-- Witness for C6: forget of the root and of an absent id are no-ops; a
partial forget decrements the refcount in place; an exhausting forget removes
the record from both indices and leaves the other record alone. -/
theorem C6_witness :
    fsW6.forget 1 5 = fsW6 ∧
    fsW6.forget 7 1 = fsW6 ∧
    (fsW6.forget 2 1).inodes.get 2 = some ⟨2, 10, 0, 1, [nmA], 0⟩ ∧
    (fsW6.forget 2 2).inodes.get 2 = none ∧
    (fsW6.forget 2 2).inodes.getAlt 10 0 = none ∧
    (fsW6.forget 2 2).inodes.get 1 = fsW6.inodes.get 1 :=
  have t1 := C6_forget_spec fsW6 1 5 (by decide)
  have t2 := C6_forget_spec fsW6 7 1 (by decide)
  have t3 := (C6_forget_spec fsW6 2 1 (by decide)).2.2 ⟨2, 10, 0, 2, [nmA], 0⟩
    (by decide) (by decide)
  have t4 := (C6_forget_spec fsW6 2 2 (by decide)).2.2 ⟨2, 10, 0, 2, [nmA], 0⟩
    (by decide) (by decide)
  ⟨t1.1 rfl, t2.2.1 (by decide), (t3.1 (by decide)).1,
    (t4.2 (by decide)).1, (t4.2 (by decide)).2.1, (t4.2 (by decide)).2.2 1 (by decide)⟩

theorem do_lookup_go_cons_err (fs : OverlayFs) (h : Host) (segs : List Name)
    (l : Nat) (rest : List Nat) (r : InodeData) (e : IoErr)
    (hr : fs.get_layer_root l = .ok r)
    (hl : lookup_segment_by_segment h r segs = some (.error e)) (he : e ≠ .notFound) :
    do_lookup_go fs h segs (l :: rest) = (.error e, fs) := by
  cases e with
  | notFound => exact absurd rfl he
  | invalidInput => simp [do_lookup_go, hr, hl]
  | permissionDenied => simp [do_lookup_go, hr, hl]
  | badFd => simp [do_lookup_go, hr, hl]
  | raw n => simp [do_lookup_go, hr, hl]

theorem do_lookup_go_cons_ok_alt (fs : OverlayFs) (h : Host) (segs : List Name)
    (l : Nat) (rest : List Nat) (r : InodeData) (st : Stat) (d : InodeData)
    (hr : fs.get_layer_root l = .ok r)
    (hl : lookup_segment_by_segment h r segs = some (.ok st))
    (halt : fs.inodes.getAlt st.st_ino st.st_dev = some d) :
    do_lookup_go fs h segs (l :: rest) =
      (.ok (d.inode, st), { fs with inodes := fs.inodes.bumpAlt st.st_ino st.st_dev 1 }) := by
  simp [do_lookup_go, hr, hl, halt]

theorem do_lookup_go_cons_ok_new (fs : OverlayFs) (h : Host) (segs : List Name)
    (l : Nat) (rest : List Nat) (r : InodeData) (st : Stat)
    (hr : fs.get_layer_root l = .ok r)
    (hl : lookup_segment_by_segment h r segs = some (.ok st))
    (halt : fs.inodes.getAlt st.st_ino st.st_dev = none) :
    do_lookup_go fs h segs (l :: rest) =
      (.ok (fs.next_inode, st),
        { fs with next_inode := fs.next_inode + 1,
                  inodes := fs.inodes.insert ⟨fs.next_inode, st.st_ino, st.st_dev, 1, segs, l⟩ }) := by
  simp [do_lookup_go, hr, hl, halt, OverlayFs.create_inode]

/-- Characterization of the fs.rs layer loop: an error leaves the state
unchanged, and a success either bumps the record found by alt-key or inserts a
fresh record under the freshly allocated id. -/
theorem do_lookup_go_spec (fs : OverlayFs) (h : Host) (segs : List Name) (ls : List Nat) :
    (∀ e, (do_lookup_go fs h segs ls).1 = .error e → (do_lookup_go fs h segs ls).2 = fs) ∧
    (∀ id st, (do_lookup_go fs h segs ls).1 = .ok (id, st) →
      ((∃ d, fs.inodes.getAlt st.st_ino st.st_dev = some d ∧ id = d.inode ∧
        (do_lookup_go fs h segs ls).2 =
          { fs with inodes := fs.inodes.bumpAlt st.st_ino st.st_dev 1 }) ∨
       (fs.inodes.getAlt st.st_ino st.st_dev = none ∧ id = fs.next_inode ∧
        ∃ L, (do_lookup_go fs h segs ls).2 =
          { fs with next_inode := fs.next_inode + 1,
                    inodes := fs.inodes.insert ⟨id, st.st_ino, st.st_dev, 1, segs, L⟩ }))) := by
  induction ls with
  | nil =>
    refine ⟨fun e _ => rfl, fun id st hc => ?_⟩
    rw [show do_lookup_go fs h segs [] = (.error .notFound, fs) from rfl] at hc
    cases hc
  | cons l rest ih =>
    cases hroot : fs.get_layer_root l with
    | error e =>
      rw [do_lookup_go_cons_rootErr fs h segs l rest e hroot]
      exact ⟨fun _ _ => rfl, fun id st hc => by cases hc⟩
    | ok r =>
      cases hlk : lookup_segment_by_segment h r segs with
      | none =>
        rw [do_lookup_go_cons_none fs h segs l rest r hroot hlk]
        exact ⟨fun _ _ => rfl, fun id st hc => by cases hc⟩
      | some res =>
        cases res with
        | error e =>
          by_cases he : e = .notFound
          · subst he
            rw [do_lookup_go_cons_pass fs h segs l rest r hroot hlk]
            exact ih
          · rw [do_lookup_go_cons_err fs h segs l rest r e hroot hlk he]
            exact ⟨fun _ _ => rfl, fun id st hc => by cases hc⟩
        | ok st' =>
          cases halt : fs.inodes.getAlt st'.st_ino st'.st_dev with
          | some d =>
            rw [do_lookup_go_cons_ok_alt fs h segs l rest r st' d hroot hlk halt]
            constructor
            · intro e hc
              exact absurd hc (by simp)
            · intro id st hc
              cases hc
              exact Or.inl ⟨d, halt, rfl, rfl⟩
          | none =>
            rw [do_lookup_go_cons_ok_new fs h segs l rest r st' hroot hlk halt]
            constructor
            · intro e hc
              exact absurd hc (by simp)
            · intro id st hc
              cases hc
              exact Or.inr ⟨halt, rfl, l, rfl⟩

theorem altUnique_bumpAlt (m : MultikeyMap) (ino : Nat) (dev : Int) (n : Nat)
    (h : AltUnique m) : AltUnique (m.bumpAlt ino dev n) := by
  unfold AltUnique MultikeyMap.bumpAlt at *
  rw [show MultikeyMap.records ⟨m.records.map (fun r =>
      if r.ino == ino && r.dev == dev then { r with refcount := r.refcount + n } else r)⟩ =
    m.records.map (fun r =>
      if r.ino == ino && r.dev == dev then { r with refcount := r.refcount + n } else r) from rfl]
  rw [List.pairwise_map]
  refine h.imp ?_
  intro a b hab hc
  apply hab
  refine ⟨?_, ?_⟩
  · have ha : (if a.ino == ino && a.dev == dev then
        { a with refcount := a.refcount + n } else a).ino = a.ino := by split <;> rfl
    have hb : (if b.ino == ino && b.dev == dev then
        { b with refcount := b.refcount + n } else b).ino = b.ino := by split <;> rfl
    rw [← ha, ← hb]
    exact hc.1
  · have ha : (if a.ino == ino && a.dev == dev then
        { a with refcount := a.refcount + n } else a).dev = a.dev := by split <;> rfl
    have hb : (if b.ino == ino && b.dev == dev then
        { b with refcount := b.refcount + n } else b).dev = b.dev := by split <;> rfl
    rw [← ha, ← hb]
    exact hc.2

theorem altUnique_insert (m : MultikeyMap) (d : InodeData)
    (h : AltUnique m) (hnone : m.getAlt d.ino d.dev = none) : AltUnique (m.insert d) := by
  unfold AltUnique MultikeyMap.insert at *
  rw [show MultikeyMap.records ⟨d :: m.records⟩ = d :: m.records from rfl, List.pairwise_cons]
  refine ⟨fun b hb hc => ?_, h⟩
  rw [getAlt_eq_none_iff] at hnone
  exact hnone b hb ⟨hc.1.symm, hc.2.symm⟩

/-- C5: lookup preserves alt-key uniqueness of the inode table, and on success
it either finds the alt-key of the freshly read stat already present — then it
bumps that record's refcount and returns the existing id — or, only otherwise,
allocates the next fresh id and inserts a new record with refcount 1. -/
theorem C5_alt_key_unique (fs : OverlayFs) (h : Host) (parent : Nat) (name : Name)
    (halt : AltUnique fs.inodes) :
    AltUnique (fs.do_lookup h parent name).2.inodes ∧
    (∀ id st, (fs.do_lookup h parent name).1 = .ok (id, st) →
      ((∃ d, fs.inodes.getAlt st.st_ino st.st_dev = some d ∧ id = d.inode ∧
        (fs.do_lookup h parent name).2.inodes = fs.inodes.bumpAlt st.st_ino st.st_dev 1) ∨
       (fs.inodes.getAlt st.st_ino st.st_dev = none ∧ id = fs.next_inode ∧
        ∃ path L, (fs.do_lookup h parent name).2.inodes =
          fs.inodes.insert ⟨id, st.st_ino, st.st_dev, 1, path, L⟩))) := by
  cases hp : fs.inodes.get parent with
  | none =>
    have hdl : fs.do_lookup h parent name = (.error .badFd, fs) := by
      simp [OverlayFs.do_lookup, hp]
    rw [hdl]
    exact ⟨halt, fun id st hc => by cases hc⟩
  | some pd =>
    have hdl : fs.do_lookup h parent name =
        do_lookup_go fs h (pd.path ++ [name]) ((List.range (pd.layer_idx + 1)).reverse) := by
      simp [OverlayFs.do_lookup, hp]
    rw [hdl]
    obtain ⟨herr, hok⟩ := do_lookup_go_spec fs h (pd.path ++ [name])
      ((List.range (pd.layer_idx + 1)).reverse)
    constructor
    · cases hres : (do_lookup_go fs h (pd.path ++ [name])
          ((List.range (pd.layer_idx + 1)).reverse)).1 with
      | error e => rw [herr e hres]; exact halt
      | ok p =>
        rcases hok p.1 p.2 (by rw [← hres]) with ⟨d, _, _, hst⟩ | ⟨hn, _, L, hst⟩
        · rw [hst]
          exact altUnique_bumpAlt fs.inodes p.2.st_ino p.2.st_dev 1 halt
        · rw [hst]
          exact altUnique_insert fs.inodes _ halt hn
    · intro id st hres
      rcases hok id st hres with ⟨d, hd, hid, hst⟩ | ⟨hn, hid, L, hst⟩
      · exact Or.inl ⟨d, hd, hid, by rw [hst]⟩
      · exact Or.inr ⟨hn, hid, pd.path ++ [name], L, by rw [hst]⟩

/-- Witness host for C5: under the single layer root `(0, 50)`, the name `a`
stats to a fresh alt-key `(0, 51)` while the name `d` stats back to the root's
own alt-key `(0, 50)`. -/
def hostW5 : Host where
  statRoot := fun dev ino =>
    if dev = 0 ∧ ino = 50 then .ok ⟨0, 50, 0⟩ else .notFound
  statChild := fun dev ino n =>
    if dev = 0 ∧ ino = 50 ∧ n = nmA then .ok ⟨0, 51, 1⟩
    else if dev = 0 ∧ ino = 50 ∧ n = nmD then .ok ⟨0, 50, 0⟩
    else .notFound

/-- Witness state for C5: one layer, one root record. -/
def fsW5 : OverlayFs := ⟨⟨[⟨1, 50, 0, 1, [], 0⟩]⟩, 2, 1, [1]⟩

/-- Witness for C5: both the alt-key-hit lookup (returning the existing id 1)
and the fresh lookup (allocating id 2) preserve alt-key uniqueness. -/
theorem C5_witness :
    AltUnique (fsW5.do_lookup hostW5 1 nmA).2.inodes ∧
    AltUnique (fsW5.do_lookup hostW5 1 nmD).2.inodes ∧
    (fsW5.do_lookup hostW5 1 nmD).1 = .ok (1, ⟨0, 50, 0⟩) ∧
    (fsW5.do_lookup hostW5 1 nmA).1 = .ok (2, ⟨0, 51, 1⟩) :=
  ⟨(C5_alt_key_unique fsW5 hostW5 1 nmA (by decide)).1,
   (C5_alt_key_unique fsW5 hostW5 1 nmD (by decide)).1,
   by decide, by decide⟩

/-!  Round-trip lemmas: a refcount bump or a fresh insert undone by `forget`. -/

/-- Well-formed table states: distinct ids, distinct alt-keys, every id below
the allocation counter, and every live record referenced at least once. -/
def WF (fs : OverlayFs) : Prop :=
  IdUnique fs.inodes ∧ AltUnique fs.inodes ∧
  ∀ r ∈ fs.inodes.records, r.inode < fs.next_inode ∧ 1 ≤ r.refcount

instance (fs : OverlayFs) : Decidable (WF fs) := by
  unfold WF
  infer_instance

theorem find?_id_map_bump (t : List InodeData) (ino : Nat) (dev : Int) (n : Nat) (d : InodeData)
    (hone : ∀ r ∈ t, (r.ino = ino ∧ r.dev = dev) → r = d)
    (honeId : ∀ r ∈ t, r.inode = d.inode → r = d)
    (hd : d ∈ t) (hdm : d.ino = ino ∧ d.dev = dev) :
    (t.map (fun r =>
        if r.ino == ino && r.dev == dev then { r with refcount := r.refcount + n } else r)).find?
      (fun r => r.inode == d.inode) = some { d with refcount := d.refcount + n } := by
  induction t with
  | nil => cases hd
  | cons a t ih =>
    rw [List.map_cons]
    by_cases haid : a.inode = d.inode
    · have had : a = d := honeId a (by simp) haid
      subst had
      rw [if_pos (by simp [hdm.1, hdm.2]), List.find?_cons_of_pos _ (by simp)]
    · have hana : ¬(a.ino = ino ∧ a.dev = dev) := fun hc => haid (by rw [hone a (by simp) hc])
      have hdt : d ∈ t := by
        cases hd with
        | head => exact absurd rfl haid
        | tail _ h => exact h
      rw [if_neg (by simp only [Bool.and_eq_true, beq_iff_eq]; exact hana),
        List.find?_cons_of_neg _ (by simp [haid])]
      exact ih (fun r hr => hone r (by simp [hr])) (fun r hr => honeId r (by simp [hr])) hdt

theorem get_bumpAlt_self (m : MultikeyMap) (ino : Nat) (dev : Int) (n : Nat) (d : InodeData)
    (halt : m.getAlt ino dev = some d) (hid : IdUnique m) (hau : AltUnique m) :
    (m.bumpAlt ino dev n).get d.inode = some { d with refcount := d.refcount + n } := by
  obtain ⟨hd, hdm⟩ := getAlt_eq_some_mem m ino dev d halt
  have hsymAlt : Symmetric (fun a b : InodeData => ¬(a.ino = b.ino ∧ a.dev = b.dev)) :=
    fun a b hab hc => hab ⟨hc.1.symm, hc.2.symm⟩
  have hsymId : Symmetric (fun a b : InodeData => a.inode ≠ b.inode) :=
    fun a b hab hc => hab hc.symm
  have hone : ∀ r ∈ m.records, (r.ino = ino ∧ r.dev = dev) → r = d := by
    intro r hr hc
    by_contra hne
    exact List.Pairwise.forall hsymAlt hau hr hd hne ⟨hc.1.trans hdm.1.symm, hc.2.trans hdm.2.symm⟩
  have honeId : ∀ r ∈ m.records, r.inode = d.inode → r = d := by
    intro r hr hc
    by_contra hne
    exact List.Pairwise.forall hsymId hid hr hd hne hc
  simp only [MultikeyMap.bumpAlt, MultikeyMap.get]
  exact find?_id_map_bump m.records ino dev n d hone honeId hd hdm

theorem bump_sub_pointwise (ino : Nat) (dev : Int) (n tgt : Nat) (a : InodeData)
    (hiff : (a.ino = ino ∧ a.dev = dev) ↔ a.inode = tgt) :
    (fun r => if r.inode == tgt then { r with refcount := r.refcount - n } else r)
      ((fun r =>
        if r.ino == ino && r.dev == dev then { r with refcount := r.refcount + n } else r) a)
      = a := by
  by_cases ham : a.ino = ino ∧ a.dev = dev
  · have haid : a.inode = tgt := hiff.1 ham
    simp only [if_pos (show (a.ino == ino && a.dev == dev) = true from by simp [ham.1, ham.2])]
    simp only [if_pos (show (({ a with refcount := a.refcount + n } :
      InodeData).inode == tgt) = true from by simp [haid])]
    cases a
    simp
  · have haid : a.inode ≠ tgt := fun hc => ham (hiff.2 hc)
    simp only [if_neg (show ¬(a.ino == ino && a.dev == dev) = true from by
      simp only [Bool.and_eq_true, beq_iff_eq]; exact ham)]
    simp only [if_neg (show ¬(a.inode == tgt) = true from by simp [haid])]

theorem map_bump_then_sub (t : List InodeData) (ino : Nat) (dev : Int) (n : Nat) (tgt : Nat)
    (hcons : ∀ r ∈ t, ((r.ino = ino ∧ r.dev = dev) ↔ r.inode = tgt)) :
    (t.map (fun r =>
        if r.ino == ino && r.dev == dev then { r with refcount := r.refcount + n } else r)).map
      (fun r => if r.inode == tgt then { r with refcount := r.refcount - n } else r) = t := by
  rw [List.map_map]
  have hpt : ∀ r ∈ t,
      ((fun r => if r.inode == tgt then { r with refcount := r.refcount - n } else r) ∘
       (fun r =>
        if r.ino == ino && r.dev == dev then { r with refcount := r.refcount + n } else r)) r
      = id r := fun r hr => bump_sub_pointwise ino dev n tgt r (hcons r hr)
  rw [List.map_congr_left hpt, List.map_id]

theorem bump_sub_cancel (m : MultikeyMap) (ino : Nat) (dev : Int) (n : Nat) (d : InodeData)
    (halt : m.getAlt ino dev = some d) (hid : IdUnique m) (hau : AltUnique m) :
    (m.bumpAlt ino dev n).subById d.inode n = m := by
  obtain ⟨hd, hdm⟩ := getAlt_eq_some_mem m ino dev d halt
  have hsymAlt : Symmetric (fun a b : InodeData => ¬(a.ino = b.ino ∧ a.dev = b.dev)) :=
    fun a b hab hc => hab ⟨hc.1.symm, hc.2.symm⟩
  have hsymId : Symmetric (fun a b : InodeData => a.inode ≠ b.inode) :=
    fun a b hab hc => hab hc.symm
  have hcons : ∀ r ∈ m.records, ((r.ino = ino ∧ r.dev = dev) ↔ r.inode = d.inode) := by
    intro r hr
    constructor
    · intro hc
      by_contra hne
      have hrd : r ≠ d := fun hc2 => hne (by rw [hc2])
      exact List.Pairwise.forall hsymAlt hau hr hd hrd
        ⟨hc.1.trans hdm.1.symm, hc.2.trans hdm.2.symm⟩
    · intro hc
      by_cases hrd : r = d
      · rw [hrd]
        exact hdm
      · exact absurd hc (List.Pairwise.forall hsymId hid hr hd hrd)
  simp only [MultikeyMap.bumpAlt, MultikeyMap.subById]
  exact congrArg MultikeyMap.mk (map_bump_then_sub m.records ino dev n d.inode hcons)

theorem get_insert_self (m : MultikeyMap) (d : InodeData) :
    (m.insert d).get d.inode = some d := by
  simp only [MultikeyMap.insert, MultikeyMap.get]
  exact List.find?_cons_of_pos _ (by simp)

theorem remove_sub_insert (m : MultikeyMap) (d : InodeData) (n : Nat)
    (hfresh : ∀ r ∈ m.records, r.inode ≠ d.inode) :
    ((m.insert d).subById d.inode n).remove d.inode = m := by
  simp only [MultikeyMap.insert, MultikeyMap.subById, MultikeyMap.remove]
  apply congrArg MultikeyMap.mk
  rw [List.map_cons, if_pos (by simp), List.filter_cons_of_neg (by simp)]
  have hmap : m.records.map
      (fun r => if r.inode == d.inode then { r with refcount := r.refcount - n } else r) =
      m.records := by
    rw [List.map_congr_left (fun r hr => if_neg (by simp [hfresh r hr]))]
    exact List.map_id m.records
  rw [hmap]
  rw [List.filter_eq_self.mpr (fun r hr => by simp [hfresh r hr])]

theorem forget_inodes_of_ne (gs : OverlayFs) (inode n : Nat)
    (hne : inode ≠ gs.init_inode) :
    (gs.forget inode n).inodes = forget_one gs.inodes inode n := by
  simp [OverlayFs.forget, hne]

/-- C7 (amended): a successful lookup followed by `forget(id, 1)` restores the
inode table exactly — provided the table is well-formed and the lookup did not
resolve to the reserved root id (`forget` skips `init_inode`, so a lookup that
lands on the root record leaves its extra refcount behind; see the
counterexample). -/
theorem C7_lookup_forget_roundtrip (fs : OverlayFs) (h : Host) (parent : Nat) (name : Name)
    (id : Nat) (st : Stat) (fs' : OverlayFs)
    (hWF : WF fs)
    (hlk : fs.do_lookup h parent name = (.ok (id, st), fs'))
    (hnr : id ≠ fs.init_inode) :
    (fs'.forget id 1).inodes = fs.inodes := by
  obtain ⟨hid, hau, hbound⟩ := hWF
  cases hp : fs.inodes.get parent with
  | none =>
    rw [show fs.do_lookup h parent name = (.error .badFd, fs) from by
      simp [OverlayFs.do_lookup, hp]] at hlk
    exact absurd (congrArg Prod.fst hlk) (by simp)
  | some pd =>
    have hdl : fs.do_lookup h parent name =
        do_lookup_go fs h (pd.path ++ [name]) ((List.range (pd.layer_idx + 1)).reverse) := by
      simp [OverlayFs.do_lookup, hp]
    rw [hdl] at hlk
    obtain ⟨_, hok⟩ := do_lookup_go_spec fs h (pd.path ++ [name])
      ((List.range (pd.layer_idx + 1)).reverse)
    have hres : (do_lookup_go fs h (pd.path ++ [name])
        ((List.range (pd.layer_idx + 1)).reverse)).1 = .ok (id, st) := by rw [hlk]
    have hstate : (do_lookup_go fs h (pd.path ++ [name])
        ((List.range (pd.layer_idx + 1)).reverse)).2 = fs' := by rw [hlk]
    rcases hok id st hres with ⟨d, hd, hidd, hst⟩ | ⟨hn, hidn, L, hst⟩
    · rw [hstate] at hst
      subst hst
      subst hidd
      have hne' : d.inode ≠
          ({ fs with inodes := fs.inodes.bumpAlt st.st_ino st.st_dev 1 } :
            OverlayFs).init_inode := hnr
      rw [forget_inodes_of_ne _ _ _ hne']
      show forget_one (fs.inodes.bumpAlt st.st_ino st.st_dev 1) d.inode 1 = fs.inodes
      have hget : (fs.inodes.bumpAlt st.st_ino st.st_dev 1).get d.inode =
          some { d with refcount := d.refcount + 1 } :=
        get_bumpAlt_self fs.inodes st.st_ino st.st_dev 1 d hd hid hau
      have hdmem := (getAlt_eq_some_mem fs.inodes st.st_ino st.st_dev d hd).1
      have hrc : 1 ≤ d.refcount := (hbound d hdmem).2
      have hcond : ¬({ d with refcount := d.refcount + 1 } : InodeData).refcount ≤ 1 := by
        show ¬d.refcount + 1 ≤ 1
        omega
      have hf1 : forget_one (fs.inodes.bumpAlt st.st_ino st.st_dev 1) d.inode 1 =
          (fs.inodes.bumpAlt st.st_ino st.st_dev 1).subById d.inode 1 := by
        simp [forget_one, hget, hcond]
      rw [hf1]
      exact bump_sub_cancel fs.inodes st.st_ino st.st_dev 1 d hd hid hau
    · rw [hstate] at hst
      subst hst
      subst hidn
      have hfresh : ∀ r ∈ fs.inodes.records, r.inode ≠ fs.next_inode :=
        fun r hr => Nat.ne_of_lt (hbound r hr).1
      have hne' : fs.next_inode ≠
          (OverlayFs.mk
            (fs.inodes.insert ⟨fs.next_inode, st.st_ino, st.st_dev, 1, pd.path ++ [name], L⟩)
            (fs.next_inode + 1) fs.init_inode fs.layer_roots).init_inode := hnr
      rw [forget_inodes_of_ne _ _ _ hne']
      show forget_one
        (fs.inodes.insert ⟨fs.next_inode, st.st_ino, st.st_dev, 1, pd.path ++ [name], L⟩)
        fs.next_inode 1 = fs.inodes
      have hf1 : ∀ dN : InodeData, dN.inode = fs.next_inode → dN.refcount = 1 →
          forget_one (fs.inodes.insert dN) fs.next_inode 1 =
          ((fs.inodes.insert dN).subById fs.next_inode 1).remove fs.next_inode := by
        intro dN h1 h2
        have hg : (fs.inodes.insert dN).get fs.next_inode = some dN := by
          rw [← h1]
          exact get_insert_self fs.inodes dN
        simp [forget_one, hg, h2]
      rw [hf1 _ rfl rfl]
      exact remove_sub_insert fs.inodes _ 1 hfresh

/-- The name `.` as bytes (it passes `validate_name`). -/
def nmDot : Name := [46]

/-- Counterexample host for C7: one layer with root `(0, 50)`; statting the
validated name `.` inside the root yields the root directory itself, so the
lookup's stat carries the root record's own alt-key. -/
def hostW7 : Host where
  statRoot := fun dev ino =>
    if dev = 0 ∧ ino = 50 then .ok ⟨0, 50, 7⟩ else .notFound
  statChild := fun dev ino n =>
    if dev = 0 ∧ ino = 50 ∧ n = nmDot then .ok ⟨0, 50, 7⟩ else .notFound

/-- Counterexample state for C7: one layer, the single root record (id 1). -/
def fsW7 : OverlayFs := ⟨⟨[⟨1, 50, 0, 1, [], 0⟩]⟩, 2, 1, [1]⟩

/-- C7 counterexample: the claim fails as stated.  Looking up the validated
name `.` resolves to the root record (id 1 = `init_inode`) and bumps its
refcount, but `forget(1, 1)` is a no-op on the root id, so the
lookup-then-forget round trip leaves the inode table changed (refcount 2
instead of 1). -/
theorem C7_counterexample :
    validate_name nmDot = .ok () ∧
    (fsW7.do_lookup hostW7 1 nmDot).1 = .ok (1, ⟨0, 50, 7⟩) ∧
    ((fsW7.do_lookup hostW7 1 nmDot).2.forget 1 1).inodes ≠ fsW7.inodes ∧
    ((fsW7.do_lookup hostW7 1 nmDot).2.forget 1 1).inodes.get 1 =
      some ⟨1, 50, 0, 2, [], 0⟩ := by
  decide

/-- Witness for the amended C7: for a fresh lookup (`a`, id 2) and for an
alt-key-hit lookup on a non-root record, forgetting the single reference
restores the table exactly. -/
theorem C7_witness :
    WF fsW5 ∧
    (fsW5.do_lookup hostW5 1 nmA).1 = .ok (2, ⟨0, 51, 1⟩) ∧
    (((fsW5.do_lookup hostW5 1 nmA).2).forget 2 1).inodes = fsW5.inodes :=
  have hlk : fsW5.do_lookup hostW5 1 nmA =
      (.ok (2, ⟨0, 51, 1⟩), (fsW5.do_lookup hostW5 1 nmA).2) := by decide
  ⟨by decide, by decide,
    C7_lookup_forget_roundtrip fsW5 hostW5 1 nmA 2 ⟨0, 51, 1⟩ _ (by decide) hlk (by decide)⟩

/-!  Characterization of `init_root_inodes`: the loop assigns id `next + p` to
the `p`-th processed layer, walking layer indices downward from the top. -/

theorem get_insert_ne (m : MultikeyMap) (d : InodeData) (tid : Nat) (h : d.inode ≠ tid) :
    (m.insert d).get tid = m.get tid := by
  simp only [MultikeyMap.insert, MultikeyMap.get]
  exact List.find?_cons_of_neg _ (by simp [h])

theorem init_go_step (layers : List Stat) (k : Nat) (m : MultikeyMap) (next : Nat)
    (roots : List Nat) (st : Stat) (hst : layers[k]? = some st) :
    init_go (k + 1) layers m next roots =
      init_go k layers (m.insert ⟨next, st.st_ino, st.st_dev, 1, [], k⟩) (next + 1)
        (roots.set k next) := by
  simp [init_go, hst]

theorem get?_of_lt_length (layers : List Stat) (k : Nat) (hk : k < layers.length) :
    ∃ st, layers[k]? = some st := by
  rw [List.getElem?_eq_getElem hk]
  exact ⟨_, rfl⟩

theorem init_go_next (layers : List Stat) :
    ∀ i (m : MultikeyMap) (next : Nat) (roots : List Nat), i ≤ layers.length →
      (init_go i layers m next roots).2.1 = next + i := by
  intro i
  induction i with
  | zero => intro m next roots _; rfl
  | succ k ih =>
    intro m next roots hle
    obtain ⟨st, hst⟩ := get?_of_lt_length layers k (by omega)
    rw [init_go_step layers k m next roots st hst,
      ih _ (next + 1) _ (by omega)]
    omega

theorem init_go_bound (layers : List Stat) :
    ∀ i (m : MultikeyMap) (next : Nat) (roots : List Nat),
      (∀ r ∈ m.records, r.inode < next) →
      ∀ r ∈ (init_go i layers m next roots).1.records,
        r.inode < (init_go i layers m next roots).2.1 := by
  intro i
  induction i with
  | zero => intro m next roots hm r hr; exact hm r hr
  | succ k ih =>
    intro m next roots hm
    cases hst : layers[k]? with
    | none =>
      rw [show init_go (k + 1) layers m next roots = (m, next, roots) from by
        simp [init_go, hst]]
      intro r hr
      exact hm r hr
    | some st =>
      rw [init_go_step layers k m next roots st hst]
      refine ih _ (next + 1) _ ?_
      intro r hr
      rw [MultikeyMap.insert] at hr
      rcases List.mem_cons.mp hr with hhd | htl
      · rw [hhd]
        exact Nat.lt_succ_self next
      · exact Nat.lt_succ_of_lt (hm r htl)

theorem init_go_roots (layers : List Stat) :
    ∀ i (m : MultikeyMap) (next : Nat) (roots : List Nat), i ≤ layers.length →
      roots.length = layers.length →
      ∀ j, (init_go i layers m next roots).2.2[j]? =
        if j < i then some (next + (i - 1 - j)) else roots[j]? := by
  intro i
  induction i with
  | zero =>
    intro m next roots _ _ j
    simp [init_go]
  | succ k ih =>
    intro m next roots hle hlen j
    obtain ⟨st, hst⟩ := get?_of_lt_length layers k (by omega)
    rw [init_go_step layers k m next roots st hst,
      ih _ (next + 1) _ (by omega) (by simpa using hlen)]
    by_cases hjk : j < k
    · rw [if_pos hjk, if_pos (by omega)]
      congr 1
      omega
    · rw [if_neg hjk]
      by_cases hjeq : j = k
      · subst hjeq
        rw [if_pos (by omega), List.getElem?_set_eq_of_lt next (by omega)]
        congr 1
        omega
      · rw [if_neg (by omega), List.getElem?_set_ne (show k ≠ j from by omega)]

theorem init_go_get_old (layers : List Stat) :
    ∀ i (m : MultikeyMap) (next : Nat) (roots : List Nat) (tid : Nat) (d : InodeData),
      (∀ r ∈ m.records, r.inode < next) → tid < next → m.get tid = some d →
      (init_go i layers m next roots).1.get tid = some d := by
  intro i
  induction i with
  | zero => intro m next roots tid d _ _ hget; exact hget
  | succ k ih =>
    intro m next roots tid d hm htid hget
    cases hst : layers[k]? with
    | none =>
      rw [show init_go (k + 1) layers m next roots = (m, next, roots) from by
        simp [init_go, hst]]
      exact hget
    | some st =>
      rw [init_go_step layers k m next roots st hst]
      refine ih _ (next + 1) _ tid d ?_ (by omega) ?_
      · intro r hr
        rw [MultikeyMap.insert] at hr
        rcases List.mem_cons.mp hr with hhd | htl
        · rw [hhd]
          exact Nat.lt_succ_self next
        · exact Nat.lt_succ_of_lt (hm r htl)
      · rw [get_insert_ne m _ tid (by simp; omega)]
        exact hget

theorem init_go_get_new (layers : List Stat) :
    ∀ i (m : MultikeyMap) (next : Nat) (roots : List Nat) (j : Nat), j < i →
      i ≤ layers.length → (∀ r ∈ m.records, r.inode < next) →
      ∃ st, layers[j]? = some st ∧
        (init_go i layers m next roots).1.get (next + (i - 1 - j)) =
          some ⟨next + (i - 1 - j), st.st_ino, st.st_dev, 1, [], j⟩ := by
  intro i
  induction i with
  | zero => intro m next roots j hj; omega
  | succ k ih =>
    intro m next roots j hj hle hm
    obtain ⟨stk, hstk⟩ := get?_of_lt_length layers k (by omega)
    rw [init_go_step layers k m next roots stk hstk]
    by_cases hjk : j = k
    · subst hjk
      refine ⟨stk, hstk, ?_⟩
      rw [show next + (j + 1 - 1 - j) = next from by omega]
      refine init_go_get_old layers j _ (next + 1) _ next _ ?_ (by omega) ?_
      · intro r hr
        rw [MultikeyMap.insert] at hr
        rcases List.mem_cons.mp hr with hhd | htl
        · rw [hhd]
          exact Nat.lt_succ_self next
        · exact Nat.lt_succ_of_lt (hm r htl)
      · exact get_insert_self m ⟨next, stk.st_ino, stk.st_dev, 1, [], j⟩
    · have hmb : ∀ r ∈ (m.insert ⟨next, stk.st_ino, stk.st_dev, 1, [], k⟩).records,
          r.inode < next + 1 := by
        intro r hr
        rw [MultikeyMap.insert] at hr
        rcases List.mem_cons.mp hr with hhd | htl
        · rw [hhd]
          exact Nat.lt_succ_self next
        · exact Nat.lt_succ_of_lt (hm r htl)
      obtain ⟨st, hst, hget⟩ := ih (m.insert ⟨next, stk.st_ino, stk.st_dev, 1, [], k⟩)
        (next + 1) (roots.set k next) j (by omega) (by omega) hmb
      refine ⟨st, hst, ?_⟩
      rw [show next + (k + 1 - 1 - j) = next + 1 + (k - 1 - j) from by omega]
      exact hget

/-- C8: inode-id allocation.  At construction the per-layer root records take
ids `1..N` (the loop walks layers from the top, so the top layer — the merged
root — gets the reserved id 1) and the counter ends at `N + 1`, hence at
least 2; afterwards `create_inode` always returns the current counter value
and bumps it, so ids grow strictly and, under the all-ids-below-counter
invariant (which allocation preserves), a freshly allocated id is never one
already in the table. -/
theorem C8_id_allocation (layers : List Stat) (fs : OverlayFs)
    (hnew : OverlayFs.new layers = .ok fs) :
    fs.init_inode = 1 ∧
    fs.next_inode = layers.length + 1 ∧
    2 ≤ fs.next_inode ∧
    (∀ j, j < layers.length → fs.layer_roots[j]? = some (layers.length - j)) ∧
    fs.layer_roots[layers.length - 1]? = some 1 ∧
    (∀ r ∈ fs.inodes.records, r.inode < fs.next_inode) ∧
    (∀ gs : OverlayFs, ∀ ino dev path li,
      (gs.create_inode ino dev path li).1 = gs.next_inode ∧
      (gs.create_inode ino dev path li).2.next_inode = gs.next_inode + 1 ∧
      ((∀ r ∈ gs.inodes.records, r.inode < gs.next_inode) →
        gs.inodes.get gs.next_inode = none ∧
        ∀ r ∈ (gs.create_inode ino dev path li).2.inodes.records,
          r.inode < (gs.create_inode ino dev path li).2.next_inode)) := by
  have hne : layers ≠ [] := by
    intro hc
    rw [hc] at hnew
    cases hnew
  have hlen : 1 ≤ layers.length := by
    cases layers with
    | nil => exact absurd rfl hne
    | cons a t => simp
  have hfs : fs =
      { inodes := (init_root_inodes layers).1,
        next_inode := (init_root_inodes layers).2.1,
        init_inode := 1,
        layer_roots := (init_root_inodes layers).2.2 } := by
    rw [OverlayFs.new, if_neg hne] at hnew
    cases hnew
    rfl
  have hnext : fs.next_inode = layers.length + 1 := by
    rw [hfs]
    show (init_root_inodes layers).2.1 = layers.length + 1
    rw [init_root_inodes, init_go_next layers layers.length _ 1 _ (Nat.le_refl _)]
    omega
  refine ⟨by rw [hfs], hnext, by omega, ?_, ?_, ?_, ?_⟩
  · intro j hj
    rw [hfs]
    show (init_root_inodes layers).2.2[j]? = some (layers.length - j)
    rw [init_root_inodes, init_go_roots layers layers.length _ 1 _ (Nat.le_refl _)
      (by simp), if_pos hj]
    congr 1
    omega
  · rw [hfs]
    show (init_root_inodes layers).2.2[layers.length - 1]? = some 1
    rw [init_root_inodes, init_go_roots layers layers.length _ 1 _ (Nat.le_refl _)
      (by simp), if_pos (by omega)]
    congr 1
    omega
  · rw [hfs]
    intro r hr
    show r.inode < (init_root_inodes layers).2.1
    exact init_go_bound layers layers.length _ 1 _ (by intro r hr; cases hr) r hr
  · intro gs ino dev path li
    refine ⟨rfl, rfl, fun hinv => ⟨?_, ?_⟩⟩
    · rw [get_eq_none_iff]
      intro r hr
      exact Nat.ne_of_lt (hinv r hr)
    · intro r hr
      rcases List.mem_cons.mp hr with hhd | htl
      · rw [hhd]
        exact Nat.lt_succ_self gs.next_inode
      · exact Nat.lt_succ_of_lt (hinv r htl)

/-- Witness state for C8: the result of constructing with two layers. -/
def fsW8 : OverlayFs := ⟨⟨[⟨2, 100, 0, 1, [], 0⟩, ⟨1, 200, 0, 1, [], 1⟩]⟩, 3, 1, [2, 1]⟩

/-- Witness for C8: with two layers, ids 1 (top layer, index 1) and 2 (bottom)
are assigned at construction, the counter rests at 3, and the next allocation
returns 3 (not any live id) and moves the counter to 4. -/
theorem C8_witness :
    OverlayFs.new [⟨0, 100, 0⟩, ⟨0, 200, 1⟩] = .ok fsW8 ∧
    fsW8.next_inode = 2 + 1 ∧
    fsW8.layer_roots[1]? = some 1 ∧
    fsW8.layer_roots[0]? = some 2 ∧
    fsW8.inodes.get 3 = none ∧
    (fsW8.create_inode 300 0 [nmA] 1).1 = fsW8.next_inode ∧
    (fsW8.create_inode 300 0 [nmA] 1).2.next_inode = fsW8.next_inode + 1 :=
  have hnew : OverlayFs.new [⟨0, 100, 0⟩, ⟨0, 200, 1⟩] = .ok fsW8 := by decide
  have hthm := C8_id_allocation [⟨0, 100, 0⟩, ⟨0, 200, 1⟩] fsW8 hnew
  have hcr := hthm.2.2.2.2.2.2 fsW8 300 0 [nmA] 1
  ⟨hnew, hthm.2.1, hthm.2.2.2.2.1, hthm.2.2.2.1 0 (by omega),
    (hcr.2.2 hthm.2.2.2.2.2.1).1, hcr.1, hcr.2.1⟩

theorem new_ok_elim (layers : List Stat) (fs : OverlayFs)
    (hnew : OverlayFs.new layers = .ok fs) :
    layers ≠ [] ∧ fs =
      { inodes := (init_root_inodes layers).1,
        next_inode := (init_root_inodes layers).2.1,
        init_inode := 1,
        layer_roots := (init_root_inodes layers).2.2 } := by
  have hne : layers ≠ [] := by
    intro hc
    rw [hc] at hnew
    cases hnew
  refine ⟨hne, ?_⟩
  rw [OverlayFs.new, if_neg hne] at hnew
  cases hnew
  rfl

theorem forget_fields (gs : OverlayFs) (i n : Nat) :
    (gs.forget i n).layer_roots = gs.layer_roots ∧
    (gs.forget i n).init_inode = gs.init_inode ∧
    (gs.forget i n).next_inode = gs.next_inode := by
  unfold OverlayFs.forget
  split <;> exact ⟨rfl, rfl, rfl⟩

/-- C9 (implicit): with N layers the per-layer root records occupy ids 1..N
(id 1 = top layer, id k = layer N−k, each with refcount 1); only id 1 is
protected from forget, so forgetting a lower-layer root id k (2 ≤ k ≤ N) with
count ≥ 1 removes that root record, after which `get_layer_root` for layer
N−k fails with EBADF — and so does any lookup whose layer scan reaches that
layer. -/
theorem C9_layer_root_forgettable (layers : List Stat) (fs : OverlayFs) (k n : Nat)
    (hnew : OverlayFs.new layers = .ok fs)
    (h2 : 2 ≤ k) (hk : k ≤ layers.length) (hn : 1 ≤ n) :
    (∀ m, fs.forget 1 m = fs) ∧
    (∃ st, layers[layers.length - k]? = some st ∧
      fs.inodes.get k = some ⟨k, st.st_ino, st.st_dev, 1, [], layers.length - k⟩) ∧
    (fs.forget k n).inodes.get k = none ∧
    (fs.forget k n).get_layer_root (layers.length - k) = .error .badFd ∧
    (∀ (h : Host) (name : Name) (parent : Nat) (pd : InodeData) (upper lower : List Nat),
      (fs.forget k n).inodes.get parent = some pd →
      (List.range (pd.layer_idx + 1)).reverse = upper ++ (layers.length - k) :: lower →
      (∀ l ∈ upper, ∃ r, (fs.forget k n).get_layer_root l = .ok r ∧
        lookup_segment_by_segment h r (pd.path ++ [name]) = some (.error .notFound)) →
      (fs.forget k n).do_lookup h parent name = (.error .badFd, fs.forget k n)) := by
  obtain ⟨hne, hfs⟩ := new_ok_elim layers fs hnew
  have hinit : fs.init_inode = 1 := by rw [hfs]
  have hkne : k ≠ fs.init_inode := by omega
  -- the root record of layer `layers.length - k` carries id k and refcount 1
  have hrec : ∃ st, layers[layers.length - k]? = some st ∧
      fs.inodes.get k = some ⟨k, st.st_ino, st.st_dev, 1, [], layers.length - k⟩ := by
    obtain ⟨st, hst, hget⟩ := init_go_get_new layers layers.length ⟨[]⟩ 1
      (List.replicate layers.length 0) (layers.length - k) (by omega) (Nat.le_refl _)
      (by intro r hr; cases hr)
    refine ⟨st, hst, ?_⟩
    rw [hfs]
    show (init_root_inodes layers).1.get k = _
    rw [init_root_inodes]
    rw [show 1 + (layers.length - 1 - (layers.length - k)) = k from by omega] at hget
    exact hget
  obtain ⟨st, hst, hgetk⟩ := hrec
  -- forgetting id k with count ≥ refcount removes the record
  have hforgetInodes : (fs.forget k n).inodes = (fs.inodes.subById k n).remove k := by
    rw [forget_inodes_of_ne fs k n hkne]
    simp [forget_one, hgetk, hn]
  have hnone : (fs.forget k n).inodes.get k = none := by
    rw [hforgetInodes]
    exact get_remove_self _ k
  have hroots : (fs.forget k n).layer_roots[layers.length - k]? = some k := by
    rw [(forget_fields fs k n).1, hfs]
    show (init_root_inodes layers).2.2[layers.length - k]? = some k
    rw [init_root_inodes, init_go_roots layers layers.length _ 1 _ (Nat.le_refl _) (by simp),
      if_pos (by omega)]
    congr 1
    omega
  have hglr : (fs.forget k n).get_layer_root (layers.length - k) = .error .badFd := by
    simp [OverlayFs.get_layer_root, List.get?_eq_getElem?, hroots, hnone,
      show ¬k = 0 from by omega]
  refine ⟨?_, ⟨st, hst, hgetk⟩, hnone, hglr, ?_⟩
  · intro m
    simp [OverlayFs.forget, hinit]
  · intro h name parent pd upper lower hp hsplit hup
    have hdl : (fs.forget k n).do_lookup h parent name =
        do_lookup_go (fs.forget k n) h (pd.path ++ [name])
          ((List.range (pd.layer_idx + 1)).reverse) := by
      simp [OverlayFs.do_lookup, hp]
    rw [hdl, hsplit,
      do_lookup_go_passthrough (fs.forget k n) h _ upper ((layers.length - k) :: lower) hup,
      do_lookup_go_cons_rootErr (fs.forget k n) h _ _ lower _ hglr]

/-- Witness host for C9: both layer roots stat fine but neither holds `x`, so
a lookup of `x` under the merged root passes through the (intact) top layer
and then reaches the forgotten bottom layer root. -/
def hostW9 : Host where
  statRoot := fun dev ino =>
    if dev = 0 ∧ ino = 200 then .ok ⟨0, 200, 0⟩
    else if dev = 0 ∧ ino = 100 then .ok ⟨0, 100, 1⟩
    else .notFound
  statChild := fun _ _ _ => .notFound

/-- Witness for C9: in the two-layer state, forgetting the bottom layer's root
id 2 removes its record, `get_layer_root 0` then fails with EBADF, and a
lookup of `x` under the merged root — which must descend to layer 0 — fails
with EBADF too; forget of the root id 1 stays a no-op. -/
theorem C9_witness :
    fsW8.forget 1 3 = fsW8 ∧
    (fsW8.forget 2 1).inodes.get 2 = none ∧
    (fsW8.forget 2 1).get_layer_root 0 = .error .badFd ∧
    (fsW8.forget 2 1).do_lookup hostW9 1 nmX = (.error .badFd, fsW8.forget 2 1) :=
  have hthm := C9_layer_root_forgettable [⟨0, 100, 0⟩, ⟨0, 200, 1⟩] fsW8 2 1
    (by decide) (by decide) (by decide) (by decide)
  have hup : ∀ l ∈ [1], ∃ r, (fsW8.forget 2 1).get_layer_root l = .ok r ∧
      lookup_segment_by_segment hostW9 r ((⟨1, 200, 0, 1, [], 1⟩ : InodeData).path ++ [nmX]) =
        some (.error .notFound) := by
    intro l hl
    rw [List.mem_singleton] at hl
    subst hl
    exact ⟨⟨1, 200, 0, 1, [], 1⟩, by decide, by decide⟩
  ⟨hthm.1 3, hthm.2.2.1, hthm.2.2.2.1,
    hthm.2.2.2.2 hostW9 nmX 1 ⟨1, 200, 0, 1, [], 1⟩ [1] [] (by decide) (by decide) hup⟩

/-!  C10: comparing the two lookup implementations. -/

/-- Counterexample host for C10 (scenario C shape): in layer 1 the directory
`d` `(0, 201)` carries the opaque marker and there is no `d/old`; in layer 0,
`d` is `(0, 101)` and holds `old` `(0, 102)`. -/
def hostC10 : Host where
  statRoot := fun dev ino =>
    if dev = 0 ∧ ino = 200 then .ok ⟨0, 200, 0⟩
    else if dev = 0 ∧ ino = 100 then .ok ⟨0, 100, 1⟩
    else .notFound
  statChild := fun dev ino n =>
    if dev = 0 ∧ ino = 200 ∧ n = nmD then .ok ⟨0, 201, 2⟩
    else if dev = 0 ∧ ino = 201 ∧ n = OPAQUE_MARKER then .ok ⟨0, 299, 3⟩
    else if dev = 0 ∧ ino = 100 ∧ n = nmD then .ok ⟨0, 101, 4⟩
    else if dev = 0 ∧ ino = 101 ∧ n = nmOld then .ok ⟨0, 102, 5⟩
    else .notFound

/-- Counterexample state for C10, fs.rs shape: roots of two layers plus the
record for `d` resolved in layer 1 (parent id 3). -/
def fs1C : OverlayFs :=
  ⟨⟨[⟨3, 201, 0, 1, [nmD], 1⟩, ⟨2, 100, 0, 1, [], 0⟩, ⟨1, 200, 0, 1, [], 1⟩]⟩, 4, 1, [2, 1]⟩

/-- Counterexample state for C10, overlayfs.rs shape: the same three records
and per-layer root ids. -/
def fs2C : OverlayFs2 :=
  ⟨⟨[⟨3, 201, 0, 1, [nmD], 1⟩, ⟨2, 100, 0, 1, [], 0⟩, ⟨1, 200, 0, 1, [], 1⟩]⟩, 4, 1, [2, 1]⟩

/-- C10 counterexample: on the same table, host state, parent and validated
name, the fs.rs lookup honors the opaque marker and fails with NotFound while
the overlayfs.rs lookup (which never consults opaque markers) reaches down to
layer 0 and returns `d/old` — the two implementations are not equivalent. -/
theorem C10_counterexample :
    fs1C.inodes = fs2C.inodes ∧
    validate_name nmOld = .ok () ∧
    (fs1C.do_lookup hostC10 3 nmOld).1 = .error .notFound ∧
    (fs2C.do_lookup hostC10 3 nmOld).1 = .ok (4, ⟨0, 102, 5⟩) := by
  decide

/-- A traversal of `segs` from `(dev, ino)` that meets no whiteout, no opaque
marker and no stat failure, returning the final stat. -/
def cleanWalk (h : Host) (dev : Int) (ino : Nat) : List Name → Option Stat
  | [] => none
  | seg :: rest =>
    match h.statChild dev ino (whiteoutName seg), h.statChild dev ino OPAQUE_MARKER,
        h.statChild dev ino seg with
    | .notFound, .notFound, .ok st =>
      match rest with
      | [] => some st
      | _ :: _ => cleanWalk h st.st_dev st.st_ino rest
    | _, _, _ => none

theorem cleanWalk_lookupSegments (h : Host) :
    ∀ (segs : List Name) (dev : Int) (ino : Nat) (st : Stat),
      cleanWalk h dev ino segs = some st →
      ∀ (cur : Stat) (opq : Bool), lookupSegments h dev ino cur opq segs = some (.ok st) := by
  intro segs
  induction segs with
  | nil => intro dev ino st hc; cases hc
  | cons seg rest ih =>
    intro dev ino st hc cur opq
    cases hw : h.statChild dev ino (whiteoutName seg) with
    | ok wst => rw [cleanWalk, hw] at hc; cases hc
    | err m => rw [cleanWalk, hw] at hc; cases hc
    | notFound =>
      cases hom : h.statChild dev ino OPAQUE_MARKER with
      | ok ost => rw [cleanWalk, hw, hom] at hc; cases hc
      | err m => rw [cleanWalk, hw, hom] at hc; cases hc
      | notFound =>
        cases hch : h.statChild dev ino seg with
        | notFound => rw [cleanWalk, hw, hom, hch] at hc; cases hc
        | err m => rw [cleanWalk, hw, hom, hch] at hc; cases hc
        | ok st1 =>
          rw [cleanWalk, hw, hom, hch] at hc
          cases rest with
          | nil =>
            cases hc
            simp [lookupSegments, hw, hom, hch]
          | cons r2 rs =>
            rw [show lookupSegments h dev ino cur opq (seg :: r2 :: rs) =
              lookupSegments h st1.st_dev st1.st_ino st1 opq (r2 :: rs) from by
                simp [lookupSegments, hw, hom, hch]]
            exact ih st1.st_dev st1.st_ino st hc st1 opq

theorem cleanWalk_hostWalk (h : Host) :
    ∀ (segs : List Name) (dev : Int) (ino : Nat) (st : Stat),
      cleanWalk h dev ino segs = some st →
      hostWalk h dev ino segs = .ok st := by
  intro segs
  induction segs with
  | nil => intro dev ino st hc; cases hc
  | cons seg rest ih =>
    intro dev ino st hc
    cases hw : h.statChild dev ino (whiteoutName seg) with
    | ok wst => rw [cleanWalk, hw] at hc; cases hc
    | err m => rw [cleanWalk, hw] at hc; cases hc
    | notFound =>
      cases hom : h.statChild dev ino OPAQUE_MARKER with
      | ok ost => rw [cleanWalk, hw, hom] at hc; cases hc
      | err m => rw [cleanWalk, hw, hom] at hc; cases hc
      | notFound =>
        cases hch : h.statChild dev ino seg with
        | notFound => rw [cleanWalk, hw, hom, hch] at hc; cases hc
        | err m => rw [cleanWalk, hw, hom, hch] at hc; cases hc
        | ok st1 =>
          rw [cleanWalk, hw, hom, hch] at hc
          cases rest with
          | nil =>
            cases hc
            simp [hostWalk, hch]
          | cons r2 rs =>
            rw [show hostWalk h dev ino (seg :: r2 :: rs) =
              hostWalk h st1.st_dev st1.st_ino (r2 :: rs) from by simp [hostWalk, hch]]
            exact ih st1.st_dev st1.st_ino st hc

/-- C10 (amended): the two lookups are not equivalent in general (see the
counterexample), but they do agree whenever the candidate path resolves in
the parent's own starting layer with no whiteout, opaque marker, or stat
error encountered along the way: starting from tables with the same records
and the same id counter, both return the same id and stat and leave the same
records. -/
theorem C10_clean_start_layer_agreement (fs1 : OverlayFs) (fs2 : OverlayFs2) (h : Host)
    (parent : Nat) (name : Name) (pd r : InodeData) (rootSt st : Stat)
    (hin : fs1.inodes = fs2.inodes) (hnext : fs1.next_inode = fs2.next_inode)
    (hp : fs1.inodes.get parent = some pd)
    (hr1 : fs1.get_layer_root pd.layer_idx = .ok r)
    (hr2 : fs2.get_layer_root pd.layer_idx = .ok r)
    (hroot : h.statRoot r.dev r.ino = .ok rootSt)
    (hclean : cleanWalk h r.dev r.ino (pd.path ++ [name]) = some st) :
    ∃ id, (fs1.do_lookup h parent name).1 = .ok (id, st) ∧
      (fs2.do_lookup h parent name).1 = .ok (id, st) ∧
      (fs1.do_lookup h parent name).2.inodes = (fs2.do_lookup h parent name).2.inodes := by
  have hp2 : fs2.inodes.get parent = some pd := by rw [← hin]; exact hp
  have hlay : (List.range (pd.layer_idx + 1)).reverse =
      pd.layer_idx :: (List.range pd.layer_idx).reverse := by
    rw [List.range_succ, List.reverse_append]
    rfl
  have hlsbs : lookup_segment_by_segment h r (pd.path ++ [name]) = some (.ok st) := by
    rw [lookup_segment_by_segment, hroot]
    exact cleanWalk_lookupSegments h (pd.path ++ [name]) r.dev r.ino st hclean rootSt false
  have hwalk : hostWalk h r.dev r.ino (pd.path ++ [name]) = .ok st :=
    cleanWalk_hostWalk h (pd.path ++ [name]) r.dev r.ino st hclean
  have hdl1 : fs1.do_lookup h parent name =
      do_lookup_go fs1 h (pd.path ++ [name]) ((List.range (pd.layer_idx + 1)).reverse) := by
    simp [OverlayFs.do_lookup, hp]
  have hdl2 : fs2.do_lookup h parent name =
      do_lookup2_go fs2 h pd.dev pd.ino name (pd.path ++ [name]) pd.layer_idx
        ((List.range (pd.layer_idx + 1)).reverse) := by
    simp [OverlayFs2.do_lookup, hp2]
  cases halt : fs1.inodes.getAlt st.st_ino st.st_dev with
  | some data =>
    have halt2 : fs2.inodes.getAlt st.st_ino st.st_dev = some data := by
      rw [← hin]; exact halt
    refine ⟨data.inode, ?_, ?_, ?_⟩
    · rw [hdl1, hlay]
      simp [do_lookup_go, hr1, hlsbs, halt]
    · rw [hdl2, hlay]
      simp [do_lookup2_go, hr2, hwalk, halt2]
    · rw [hdl1, hdl2, hlay]
      simp [do_lookup_go, do_lookup2_go, hr1, hr2, hlsbs, hwalk, halt, halt2]
      rw [hin]
  | none =>
    have halt2 : fs2.inodes.getAlt st.st_ino st.st_dev = none := by
      rw [← hin]; exact halt
    refine ⟨fs1.next_inode, ?_, ?_, ?_⟩
    · rw [hdl1, hlay]
      simp [do_lookup_go, hr1, hlsbs, halt, OverlayFs.create_inode]
    · rw [hdl2, hlay, hnext]
      simp [do_lookup2_go, hr2, hwalk, halt2, OverlayFs2.create_inode]
    · rw [hdl1, hdl2, hlay]
      simp [do_lookup_go, do_lookup2_go, hr1, hr2, hlsbs, hwalk, halt, halt2,
        OverlayFs.create_inode, OverlayFs2.create_inode]
      rw [hin, hnext]

/-- Witness host for C10: a single layer whose root `(0, 50)` holds `a`. -/
def hostWA : Host where
  statRoot := fun dev ino =>
    if dev = 0 ∧ ino = 50 then .ok ⟨0, 50, 0⟩ else .notFound
  statChild := fun dev ino n =>
    if dev = 0 ∧ ino = 50 ∧ n = nmA then .ok ⟨0, 51, 1⟩ else .notFound

/-- Witness state for C10, fs.rs shape. -/
def fsA1 : OverlayFs := ⟨⟨[⟨1, 50, 0, 1, [], 0⟩]⟩, 2, 1, [1]⟩

/-- Witness state for C10, overlayfs.rs shape (same records and counter). -/
def fsA2 : OverlayFs2 := ⟨⟨[⟨1, 50, 0, 1, [], 0⟩]⟩, 2, 1, [1]⟩

/-- Witness for the amended C10: on a clean start-layer hit both
implementations return id 2 with the same stat and the same records. -/
theorem C10_witness :
    (fsA1.do_lookup hostWA 1 nmA).1 = .ok (2, ⟨0, 51, 1⟩) ∧
    (fsA2.do_lookup hostWA 1 nmA).1 = .ok (2, ⟨0, 51, 1⟩) ∧
    (fsA1.do_lookup hostWA 1 nmA).2.inodes = (fsA2.do_lookup hostWA 1 nmA).2.inodes := by
  obtain ⟨id, h1, h2, h3⟩ := C10_clean_start_layer_agreement fsA1 fsA2 hostWA 1 nmA
    ⟨1, 50, 0, 1, [], 0⟩ ⟨1, 50, 0, 1, [], 0⟩ ⟨0, 50, 0⟩ ⟨0, 51, 1⟩
    rfl rfl (by decide) (by decide) (by decide) (by decide) (by decide)
  have hid : id = 2 := by
    have hc := h1.symm.trans
      (show (fsA1.do_lookup hostWA 1 nmA).1 = .ok (2, ⟨0, 51, 1⟩) from by decide)
    simpa using hc
  subst hid
  exact ⟨h1, h2, h3⟩

end Overlay
